import Mathlib

/-!
Verification of the Chess-mover core against its specification.

Shallow embedding of the Python sources:
  src/logic/smart_storage.py   (SmartStorage, StorageSquare, strategies)
  src/logic/edge_push.py       (EdgePushManager)
  src/logic/board_state.py     (BoardState, Piece, FEN load/export)
  src/logic/move_executor.py   (MoveExecutor planners, GantryAction)
  src/controllers/gantry_controller.py (GantryController speed/emergency logic)

Conventions of the embedding:
  - Python strings are `List Char`; square names ("e4", "a9") are `Sq`.
  - Python dicts keyed by square name are association lists in insertion
    order (Python ≥3.7 dict order); lookups take the first match, callers
    keep keys unique.
  - Mutating methods are embedded in state-passing style: they return the
    new object (and the method result, where there is one).
  - Python ints are `Int` (or `Nat` for values that are always counts or
    indices in the source); float arithmetic that is exact on the values
    the source feeds it is replaced by the equal integer arithmetic, with
    a comment at each such spot.
  - Leading underscores of Python method names are dropped.
-/

namespace ChessMover

/-- Square names and other Python strings are lists of characters. -/
abbrev Sq := List Char

/-- Decimal digit string of a natural number: Python `str(n)` for `n ≥ 0`. -/
def natChars (n : Nat) : List Char := Nat.toDigits 10 n

/-- Decimal value of a digit string, accumulator form: Python `int(s)`.
Python raises `ValueError` on non-digit characters; this embedding is total
and every theorem below applies it to digit strings only. -/
def charsToNatAux (acc : Nat) : List Char → Nat
  | [] => acc
  | c :: t => charsToNatAux (acc * 10 + (c.toNat - 48)) t

/-- Python `int(s)` for a decimal digit string `s`. -/
def charsToNat (s : List Char) : Nat := charsToNatAux 0 s

/-- Square name built by the sources as `f"{chr(ord('a') + file_idx)}{rank_idx + 1}"`
(smart_storage.py:84, board_state.py:166). -/
def sqName (fileIdx rankIdx : Nat) : Sq :=
  Char.ofNat (97 + fileIdx) :: natChars (rankIdx + 1)

/-- File index read off a square name: Python `ord(square[0]) - ord('a')`.
Python raises `IndexError` on the empty string; theorems below only apply
this to well-formed square names. -/
def sqFileIdx (s : Sq) : Int := ((s.headD 'a').toNat : Int) - 97

/-- Rank index read off a square name: Python `int(square[1:]) - 1`. -/
def sqRankIdx (s : Sq) : Int := (charsToNat (s.drop 1) : Int) - 1

/-- Chess piece types (board_state.py `PieceType`, FEN letter values). -/
inductive PieceType
  | pawn | knight | bishop | rook | queen | king
deriving DecidableEq

/-- Piece colors (board_state.py `PieceColor`). -/
inductive PieceColor
  | white | black
deriving DecidableEq

/-- A chess piece (board_state.py `Piece`). -/
structure Piece where
  type : PieceType
  color : PieceColor
deriving DecidableEq

/-- FEN letter of a piece type (`PieceType.value` in board_state.py). -/
def pieceTypeChar : PieceType → Char
  | .pawn => 'p'
  | .knight => 'n'
  | .bishop => 'b'
  | .rook => 'r'
  | .queen => 'q'
  | .king => 'k'

/-- Python `str(piece)` (board_state.py:37): the FEN character, uppercase
for white. -/
def pieceChar (p : Piece) : Char :=
  if p.color = PieceColor.white then (pieceTypeChar p.type).toUpper else pieceTypeChar p.type

/-- Inverse of `PieceType.value`: Python `PieceType(char)` over the six
lowercase FEN letters. Python raises `ValueError` on any other character;
this embedding defaults to `king` (the last letter) and every theorem below
feeds it valid FEN letters only. -/
def pieceTypeOfChar (c : Char) : PieceType :=
  if c = 'p' then .pawn
  else if c = 'n' then .knight
  else if c = 'b' then .bishop
  else if c = 'r' then .rook
  else if c = 'q' then .queen
  else .king

/-- Python `Piece.from_fen` (board_state.py:42): uppercase is white, type
from the lowercased letter. -/
def Piece.from_fen (c : Char) : Piece :=
  { color := if c.isUpper then PieceColor.white else PieceColor.black
    type := pieceTypeOfChar c.toLower }

/-- Storage layouts (board_map.py `StorageLayout`). -/
inductive StorageLayout
  | none | top | bottom | perimeter
deriving DecidableEq

/-- Playing-area bounds within the board grid (board_map.py `PlayArea`),
0-indexed inclusive. -/
structure PlayArea where
  min_file : Nat
  max_file : Nat
  min_rank : Nat
  max_rank : Nat
deriving DecidableEq

/-- Board configuration (board_map.py `BoardConfig`). The mm-geometry
fields (`width_mm`, `height_mm`, `origin_x_mm`, `origin_y_mm`) are not
consulted by any embedded operation and are omitted. -/
structure BoardConfig where
  files : Nat
  ranks : Nat
  play_area : Option PlayArea := Option.none
  storage_layout : StorageLayout := StorageLayout.none
deriving DecidableEq

/-- board_map.py `BoardConfig.is_playing_square`: with no `play_area` the
whole board is playing area, otherwise the inclusive bounds check. -/
def BoardConfig.is_playing_square (cfg : BoardConfig) (file_idx rank_idx : Nat) : Bool :=
  match cfg.play_area with
  | Option.none => true
  | some pa =>
      decide (pa.min_file ≤ file_idx) && decide (file_idx ≤ pa.max_file) &&
      decide (pa.min_rank ≤ rank_idx) && decide (rank_idx ≤ pa.max_rank)

/-- Storage assignment strategies (smart_storage.py `StorageStrategy`). -/
inductive StorageStrategy
  | nearest | by_color | by_type | chronological
deriving DecidableEq

/-- A storage square with metadata (smart_storage.py `StorageSquare`). -/
structure StorageSquare where
  square : Sq
  file_idx : Nat
  rank_idx : Nat
  occupied : Bool := false
  piece : Option Piece := Option.none
  priority : Int := 0
  reserved_for_color : Option PieceColor := Option.none
  reserved_for_type : Option PieceType := Option.none
deriving DecidableEq

/-- smart_storage.py `SmartStorage._calculate_priority`. For TOP/BOTTOM the
source computes `int(abs(file_idx - files / 2) * 10)` in float; on integer
inputs `abs(f - files/2) * 10 = |2f - files| * 5` exactly (half-integers
times ten), so `int` truncation is the identity and the expression below is
equal to the source's. BOTTOM uses Int subtraction as Python does. -/
def calculate_priority (cfg : BoardConfig) (file_idx rank_idx : Nat) : Int :=
  match cfg.storage_layout with
  | .top =>
      (rank_idx : Int) * 100 + (((2 * (file_idx : Int) - (cfg.files : Int)).natAbs : Int) * 5)
  | .bottom =>
      ((cfg.ranks : Int) - (rank_idx : Int)) * 100 +
        (((2 * (file_idx : Int) - (cfg.files : Int)).natAbs : Int) * 5)
  | .perimeter =>
      if (file_idx = 0 ∨ file_idx = cfg.files - 1) ∧ (rank_idx = 0 ∨ rank_idx = cfg.ranks - 1)
      then 0 else 50
  | .none => 100

/-- smart_storage.py `SmartStorage._apply_strategy_reservations`. BY_COLOR
compares `file_idx < files / 2` in float; on ints this is exactly
`2 * file_idx < files`. The Python method mutates the passed square; the
embedding returns the updated copy. -/
def apply_strategy_reservations (strategy : StorageStrategy) (cfg : BoardConfig)
    (sq : StorageSquare) : StorageSquare :=
  match strategy with
  | .by_color =>
      if 2 * sq.file_idx < cfg.files then { sq with reserved_for_color := some PieceColor.white }
      else { sq with reserved_for_color := some PieceColor.black }
  | .by_type =>
      match cfg.storage_layout with
      | .top =>
          if sq.rank_idx = cfg.ranks - 2 then { sq with reserved_for_type := some PieceType.pawn }
          else sq
      | .perimeter =>
          if sq.rank_idx = 0 then { sq with reserved_for_type := some PieceType.pawn }
          else sq
      | _ => sq
  | _ => sq

/-- One file column of `SmartStorage._build_storage_map`: the inner
`for rank_idx in range(ranks)` loop, keeping non-playing squares. -/
def buildStorageCol (cfg : BoardConfig) (strategy : StorageStrategy) (file_idx : Nat) :
    List StorageSquare :=
  (List.range cfg.ranks).filterMap fun rank_idx =>
    if cfg.is_playing_square file_idx rank_idx then Option.none
    else some (apply_strategy_reservations strategy cfg
      { square := sqName file_idx rank_idx
        file_idx := file_idx
        rank_idx := rank_idx
        priority := calculate_priority cfg file_idx rank_idx })

/-- smart_storage.py `SmartStorage._build_storage_map`: files outer loop,
ranks inner loop; dict insertion order is the concatenation order. -/
def build_storage_map (cfg : BoardConfig) (strategy : StorageStrategy) : List StorageSquare :=
  ((List.range cfg.files).map (buildStorageCol cfg strategy)).flatten

/-- smart_storage.py `SmartStorage` object state: configuration, strategy
and the storage map (dict values in insertion order; keys `.square` are
unique for maps built by `_build_storage_map`). -/
structure SmartStorage where
  board_config : BoardConfig
  strategy : StorageStrategy
  storage_map : List StorageSquare
deriving DecidableEq

/-- smart_storage.py `SmartStorage.__init__`. -/
def mkSmartStorage (cfg : BoardConfig) (strategy : StorageStrategy) : SmartStorage :=
  { board_config := cfg, strategy := strategy, storage_map := build_storage_map cfg strategy }

/-- First element of `x :: xs` minimising `key` under the strict order `lt`,
keeping the earlier element on ties. This is exactly what the source's
`available.sort(key=...)[0]` (Python sort is stable) and
`min(available, key=...)` compute. -/
def firstMinBy {α κ : Type} (lt : κ → κ → Bool) (key : α → κ) (x : α) (xs : List α) : α :=
  xs.foldl (fun best y => if lt (key y) (key best) then y else best) x

/-- Strict order on `Int` as a Bool, for `firstMinBy`. -/
def intLt (a b : Int) : Bool := decide (a < b)

/-- Manhattan distance of a storage square from file/rank indices
(smart_storage.py `_assign_nearest.distance`; float in the source, always
integer-valued on these inputs). -/
def storageDistance (sq : StorageSquare) (ff fr : Int) : Int :=
  (((sq.file_idx : Int) - ff).natAbs : Int) + (((sq.rank_idx : Int) - fr).natAbs : Int)

/-- smart_storage.py `SmartStorage._assign_nearest` on the non-empty
available list `a :: rest`. -/
def assign_nearest (from_square : Sq) (a : StorageSquare) (rest : List StorageSquare) : Sq :=
  (firstMinBy intLt (fun sq => storageDistance sq (sqFileIdx from_square) (sqRankIdx from_square))
    a rest).square

/-- smart_storage.py `SmartStorage._assign_by_color`: prefer squares
reserved for the piece's color; otherwise lowest-priority available. -/
def assign_by_color (piece : Piece) (a : StorageSquare) (rest : List StorageSquare) : Sq :=
  match (a :: rest).filter (fun sq => decide (sq.reserved_for_color = some piece.color)) with
  | [] => (firstMinBy intLt StorageSquare.priority a rest).square
  | r :: rs => (firstMinBy intLt StorageSquare.priority r rs).square

/-- smart_storage.py `SmartStorage._assign_by_type`: prefer squares
reserved for the piece's type; otherwise lowest-priority available. -/
def assign_by_type (piece : Piece) (a : StorageSquare) (rest : List StorageSquare) : Sq :=
  match (a :: rest).filter (fun sq => decide (sq.reserved_for_type = some piece.type)) with
  | [] => (firstMinBy intLt StorageSquare.priority a rest).square
  | r :: rs => (firstMinBy intLt StorageSquare.priority r rs).square

/-- smart_storage.py `SmartStorage._assign_chronological`: lowest-priority
available square. -/
def assign_chronological (a : StorageSquare) (rest : List StorageSquare) : Sq :=
  (firstMinBy intLt StorageSquare.priority a rest).square

/-- smart_storage.py `SmartStorage.assign_storage_square`: filter to
unoccupied squares, `None` if there are none, else dispatch on the
strategy. The method performs no writes; the embedding returns the
(unchanged) object alongside the result to make that frame property a
statement about the code. The source's trailing default branch
(`available.sort(...)`; smart_storage.py:191) is unreachable: the four
enum members are all matched above it. -/
def SmartStorage.assign_storage_square (self : SmartStorage) (piece : Piece)
    (from_square : Sq) : Option Sq × SmartStorage :=
  match self.storage_map.filter (fun sq => !sq.occupied) with
  | [] => (Option.none, self)
  | a :: rest =>
      (some (match self.strategy with
        | .nearest => assign_nearest from_square a rest
        | .by_color => assign_by_color piece a rest
        | .by_type => assign_by_type piece a rest
        | .chronological => assign_chronological a rest), self)

/-- smart_storage.py `SmartStorage.mark_occupied`: sets `occupied`/`piece`
on the entry keyed by `square`, no-op when the key is absent. -/
def SmartStorage.mark_occupied (self : SmartStorage) (square : Sq) (piece : Piece) :
    SmartStorage :=
  { self with storage_map := self.storage_map.map fun sq =>
      if sq.square = square then { sq with occupied := true, piece := some piece } else sq }

/-- smart_storage.py `SmartStorage.mark_empty`. -/
def SmartStorage.mark_empty (self : SmartStorage) (square : Sq) : SmartStorage :=
  { self with storage_map := self.storage_map.map fun sq =>
      if sq.square = square then { sq with occupied := false, piece := Option.none } else sq }

/-- smart_storage.py `SmartStorage.find_piece_in_storage`: first storage
square (dict iteration order) holding an occupied matching piece. -/
def SmartStorage.find_piece_in_storage (self : SmartStorage) (piece_type : PieceType)
    (piece_color : PieceColor) : Option Sq :=
  (self.storage_map.find? fun sq =>
    sq.occupied && (match sq.piece with
      | some p => decide (p.type = piece_type) && decide (p.color = piece_color)
      | Option.none => false)).map StorageSquare.square

/-- Square name from a file index and a 1-based rank NUMBER, as edge_push.py
writes it directly (`f"{chr(ord('a') + file_idx)}{ranks}"` and similar). -/
def sqNameN (fileIdx rankNum : Nat) : Sq :=
  Char.ofNat (97 + fileIdx) :: natChars rankNum

/-- Push directions (edge_push.py `EdgeDirection`). -/
inductive EdgeDirection
  | north | south | east | west
deriving DecidableEq

/-- An edge push location (edge_push.py `EdgePushLocation`). -/
structure EdgePushLocation where
  edge_square : Sq
  push_square : Sq
  direction : EdgeDirection
  priority : Nat
  occupied : Bool := false
deriving DecidableEq

/-- edge_push.py `EdgePushManager._build_edge_locations`: top edge, bottom
edge, right edge (rank numbers 2..ranks-1), left edge (same rank numbers,
push square on the '@' pseudo-file), in that list order. -/
def build_edge_locations (cfg : BoardConfig) : List EdgePushLocation :=
  ((List.range cfg.files).map fun f =>
    { edge_square := sqNameN f cfg.ranks, push_square := sqNameN f (cfg.ranks + 1)
      direction := EdgeDirection.north
      priority := if f = 0 ∨ f = cfg.files - 1 then 1 else 2 })
  ++ ((List.range cfg.files).map fun f =>
    { edge_square := sqNameN f 1, push_square := sqNameN f 0
      direction := EdgeDirection.south
      priority := if f = 0 ∨ f = cfg.files - 1 then 1 else 2 })
  ++ ((List.range' 2 (cfg.ranks - 2)).map fun rnum =>
    { edge_square := sqNameN (cfg.files - 1) rnum, push_square := sqNameN cfg.files rnum
      direction := EdgeDirection.east, priority := 2 })
  ++ ((List.range' 2 (cfg.ranks - 2)).map fun rnum =>
    { edge_square := sqNameN 0 rnum, push_square := '@' :: natChars rnum
      direction := EdgeDirection.west, priority := 2 })

/-- edge_push.py `EdgePushManager` object state. -/
structure EdgePushManager where
  board_config : BoardConfig
  edge_locations : List EdgePushLocation
deriving DecidableEq

/-- edge_push.py `EdgePushManager.__init__`. -/
def mkEdgePushManager (cfg : BoardConfig) : EdgePushManager :=
  { board_config := cfg, edge_locations := build_edge_locations cfg }

/-- Dict lookup (`position.get(square)` / `position[square]`): first entry
with the matching key. -/
def posGet : List (Sq × Piece) → Sq → Option Piece
  | [], _ => Option.none
  | (k, v) :: t, n => if k = n then some v else posGet t n

/-- board_state.py `BoardState`: two independent square-to-piece dicts and
an optional board configuration. -/
structure BoardState where
  virtual_position : List (Sq × Piece) := []
  physical_position : List (Sq × Piece) := []
  board_cfg : Option BoardConfig := Option.none
deriving DecidableEq

/-- board_state.py `BoardState.get_piece_virtual`. -/
def BoardState.get_piece_virtual (self : BoardState) (square : Sq) : Option Piece :=
  posGet self.virtual_position square

/-- board_state.py `BoardState.get_piece_physical`. -/
def BoardState.get_piece_physical (self : BoardState) (square : Sq) : Option Piece :=
  posGet self.physical_position square

/-- The attribute access `board_state.get_piece(...)` at edge_push.py:135.
`BoardState` (board_state.py) defines `get_piece_virtual` and
`get_piece_physical` but no method named `get_piece`, so this call raises
`AttributeError` on every `BoardState` argument; modelled as `Except.error`. -/
def boardStateGetPieceAttr (_board_state : BoardState) (_square : Sq) :
    Except Unit (Option Piece) :=
  Except.error ()

/-- The list comprehension filter in `find_edge_push_location`
(edge_push.py:133-136): `not loc.occupied and board_state.get_piece(...) is
None`, with Python's left-to-right short-circuit (the attribute access is
only evaluated for unoccupied locations). -/
def edgeAvailableFilter (board_state : BoardState) :
    List EdgePushLocation → Except Unit (List EdgePushLocation)
  | [] => Except.ok []
  | loc :: rest =>
      if loc.occupied then edgeAvailableFilter board_state rest
      else do
        let p ← boardStateGetPieceAttr board_state loc.edge_square
        let t ← edgeAvailableFilter board_state rest
        pure (if p = Option.none then loc :: t else t)

/-- Python tuple comparison on `(priority, distance)` pairs. -/
def pairLt (a b : Int × Int) : Bool :=
  decide (a.1 < b.1) || (decide (a.1 = b.1) && decide (a.2 < b.2))

/-- Manhattan distance of a location's edge square from file/rank indices
(edge_push.py `location_score`; float in the source, integer-valued). -/
def edgeLocDistance (loc : EdgePushLocation) (ff fr : Int) : Int :=
  ((sqFileIdx loc.edge_square - ff).natAbs : Int) + ((sqRankIdx loc.edge_square - fr).natAbs : Int)

/-- The `(priority, distance)` score of `location_score` (edge_push.py:145). -/
def locationScore (from_square : Sq) (loc : EdgePushLocation) : Int × Int :=
  ((loc.priority : Int), edgeLocDistance loc (sqFileIdx from_square) (sqRankIdx from_square))

/-- edge_push.py `EdgePushManager.find_edge_push_location`: filter to
locations unoccupied in the manager's bookkeeping and empty on the live
board, `None` when nothing is available, otherwise
`min(available, key=location_score)` (first minimum). The board-emptiness
check goes through `boardStateGetPieceAttr`, so the whole call is in
`Except`. -/
def EdgePushManager.find_edge_push_location (self : EdgePushManager)
    (board_state : BoardState) (from_square : Sq) :
    Except Unit (Option EdgePushLocation) := do
  let available ← edgeAvailableFilter board_state self.edge_locations
  match available with
  | [] => pure Option.none
  | a :: rest => pure (some (firstMinBy pairLt (locationScore from_square) a rest))

/-- Gantry action kinds (move_executor.py `ActionType`). -/
inductive ActionType
  | move_to | lift_up | lift_down | grip_open | grip_close | wait | push
deriving DecidableEq

/-- A single gantry action (move_executor.py `GantryAction`). The
human-readable `description` field and the push metadata
(`push_direction`, `push_distance_mm`, `feedrate`) are omitted: no claim
consults them and the embedded planners never set them. -/
structure GantryAction where
  action_type : ActionType
  square : Option Sq := Option.none
  duration_ms : Nat := 0
deriving DecidableEq

/-- Move metadata from the external chess engine (chess_engine.py
`MoveAnalysis`), treated as read-only input (spec §6). Fields only used in
human-readable descriptions are omitted. -/
structure MoveAnalysis where
  from_square : Sq
  to_square : Sq
  is_capture : Bool := false
  captured_square : Option Sq := Option.none
  is_castling : Bool := false
  castling_rook_move : Option (Sq × Sq) := Option.none
  is_en_passant : Bool := false
  en_passant_capture_square : Option Sq := Option.none
deriving DecidableEq

/-- move_executor.py `MoveExecutor._plan_normal_move`: the 9-action
pick-travel-place template. -/
def plan_normal_move (a : MoveAnalysis) : List GantryAction :=
  [ { action_type := ActionType.move_to, square := some a.from_square },
    { action_type := ActionType.lift_down },
    { action_type := ActionType.grip_close },
    { action_type := ActionType.wait, duration_ms := 200 },
    { action_type := ActionType.lift_up },
    { action_type := ActionType.move_to, square := some a.to_square },
    { action_type := ActionType.lift_down },
    { action_type := ActionType.grip_open },
    { action_type := ActionType.lift_up } ]

/-- The sentinel string `"storage_full_fallback"` substituted for a storage
square by `_plan_capture` when storage is exhausted (move_executor.py:181). -/
def storage_full_fallback : Sq :=
  ['s','t','o','r','a','g','e','_','f','u','l','l','_','f','a','l','l','b','a','c','k']

/-- move_executor.py `MoveExecutor._plan_capture`. `captured_piece` stands
for the `Piece(captured_piece_type, captured_color)` the source derives
from the external chess engine (`board.turn` and
`_get_piece_type_from_analysis`); the engine is an external collaborator
(spec §6) and supplies that value. Returns the planned actions and the
updated storage object. -/
def plan_capture (storage : SmartStorage) (a : MoveAnalysis) (captured_piece : Piece) :
    List GantryAction × SmartStorage :=
  match a.captured_square with
  | Option.none => (plan_normal_move a, storage)
  | some captured_square =>
      let (assigned, storage) := storage.assign_storage_square captured_piece captured_square
      let storage_square : Sq :=
        match assigned with
        | some sq => sq
        | Option.none => storage_full_fallback
      let removal : List GantryAction :=
        [ { action_type := ActionType.move_to, square := some captured_square },
          { action_type := ActionType.lift_down },
          { action_type := ActionType.grip_close },
          { action_type := ActionType.wait, duration_ms := 200 },
          { action_type := ActionType.lift_up },
          { action_type := ActionType.move_to, square := some storage_square },
          { action_type := ActionType.lift_down },
          { action_type := ActionType.grip_open },
          { action_type := ActionType.lift_up } ]
      let storage :=
        if storage_square ≠ storage_full_fallback
        then storage.mark_occupied storage_square captured_piece
        else storage
      (removal ++ plan_normal_move a, storage)

/-- move_executor.py `MoveExecutor.plan_promotion`: locate the promoted
piece in storage (fail with `None` if absent), park the pawn in a freshly
assigned storage square (fail with `None` if storage is full, mark the
square occupied), then fetch the promoted piece to the promotion square and
mark its storage square empty. -/
def plan_promotion (storage : SmartStorage) (from_square to_square : Sq)
    (promoted_piece_type : PieceType) (piece_color : PieceColor) :
    Option (List GantryAction) × SmartStorage :=
  match storage.find_piece_in_storage promoted_piece_type piece_color with
  | Option.none => (Option.none, storage)
  | some promoted_piece_square =>
      let pawn_piece : Piece := { type := PieceType.pawn, color := piece_color }
      let (assigned, storage) := storage.assign_storage_square pawn_piece to_square
      match assigned with
      | Option.none => (Option.none, storage)
      | some pawn_storage_square =>
          let step2 : List GantryAction :=
            [ { action_type := ActionType.move_to, square := some from_square },
              { action_type := ActionType.lift_down },
              { action_type := ActionType.grip_close },
              { action_type := ActionType.wait, duration_ms := 200 },
              { action_type := ActionType.lift_up },
              { action_type := ActionType.move_to, square := some pawn_storage_square },
              { action_type := ActionType.lift_down },
              { action_type := ActionType.grip_open },
              { action_type := ActionType.lift_up } ]
          let storage := storage.mark_occupied pawn_storage_square pawn_piece
          let step3 : List GantryAction :=
            [ { action_type := ActionType.move_to, square := some promoted_piece_square },
              { action_type := ActionType.lift_down },
              { action_type := ActionType.grip_close },
              { action_type := ActionType.wait, duration_ms := 200 },
              { action_type := ActionType.lift_up },
              { action_type := ActionType.move_to, square := some to_square },
              { action_type := ActionType.lift_down },
              { action_type := ActionType.grip_open },
              { action_type := ActionType.lift_up } ]
          let storage := storage.mark_empty promoted_piece_square
          (some (step2 ++ step3), storage)

/-- Connection states (gantry_controller.py `ConnectionState`). -/
inductive ConnectionState
  | disconnected | connecting | connected | error | alarm
deriving DecidableEq

/-- gantry_controller.py `GantryController` state relevant to the embedded
methods. `ser` is whether `_ser` holds a live port object (`_ser is not
None`); `emergency_stop_flag` is `_emergency_stop`. Defaults are the
`__init__` values. -/
structure GantryController where
  state : ConnectionState := ConnectionState.disconnected
  ser : Bool := false
  emergency_stop_flag : Bool := false
  auto_reconnect : Bool := false
  keep_alive_enabled : Bool := false
  max_speed_mm_min : Int := 5000
  min_speed_mm_min : Int := 100
  enable_speed_limit : Bool := true
deriving DecidableEq

/-- gantry_controller.py `GantryController.emergency_stop`: always sets the
flag; only when a port object exists does it attempt the single-byte `!`
write, and only when that write succeeds does it set the Alarm state (the
except branch just logs). `write_ok` represents the environment-determined
outcome of the write; the returned Bool is whether a write was attempted. -/
def GantryController.emergency_stop (self : GantryController) (write_ok : Bool) :
    GantryController × Bool :=
  let self := { self with emergency_stop_flag := true }
  if self.ser then
    if write_ok then ({ self with state := ConnectionState.alarm }, true)
    else (self, true)
  else (self, false)

/-- gantry_controller.py `GantryController.reset_emergency_stop`: clears
the flag (and logs). -/
def GantryController.reset_emergency_stop (self : GantryController) : GantryController :=
  { self with emergency_stop_flag := false }

/-- Python `str(i)` for an int. -/
def intChars (i : Int) : List Char :=
  if i < 0 then '-' :: natChars i.natAbs else natChars i.natAbs

/-- The warning f-string of `validate_speed`
(`f"Speed limited: {original_speed} → {speed_mm_min} mm/min (max)"`). -/
def speedWarning (original new : Int) (tag : List Char) : List Char :=
  ['S','p','e','e','d',' ','l','i','m','i','t','e','d',':',' ']
    ++ intChars original ++ [' ','→',' '] ++ intChars new
    ++ [' ','m','m','/','m','i','n',' ','('] ++ tag ++ [')']

/-- gantry_controller.py `GantryController.validate_speed`: identity with
empty warning when limiting is disabled; otherwise clamp to max, else to
min, with the warning string; unchanged input gives the empty warning. -/
def GantryController.validate_speed (self : GantryController) (speed_mm_min : Int) :
    Int × List Char :=
  if !self.enable_speed_limit then (speed_mm_min, [])
  else if speed_mm_min > self.max_speed_mm_min then
    (self.max_speed_mm_min, speedWarning speed_mm_min self.max_speed_mm_min ['m','a','x'])
  else if speed_mm_min < self.min_speed_mm_min then
    (self.min_speed_mm_min, speedWarning speed_mm_min self.min_speed_mm_min ['m','i','n'])
  else (speed_mm_min, [])

/-- Python `s.split('/')` on a character list (never returns an empty list
of parts). -/
def splitSlash : List Char → List (List Char)
  | [] => [[]]
  | c :: t =>
      if c = '/' then [] :: splitSlash t
      else
        match splitSlash t with
        | [] => [[c]]
        | h :: r => (c :: h) :: r

/-- Python `'/'.join(parts)`. -/
def joinSlash : List (List Char) → List Char
  | [] => []
  | [x] => x
  | x :: y :: r => x ++ '/' :: joinSlash (y :: r)

/-- The inner character loop of `load_fen` (board_state.py:154-169) for one
FEN rank: `rank_num` is the 0-based physical rank the pieces land on,
`file` the running physical file counter (started at the file offset).
Digits advance the counter; any other character places
`Piece.from_fen(char)` at `sqName file rank_num`. -/
def loadRankAux (rank_num : Nat) (file : Nat) : List Char → List (Sq × Piece)
  | [] => []
  | c :: t =>
      if c.isDigit then loadRankAux rank_num (file + (c.toNat - 48)) t
      else (sqName file rank_num, Piece.from_fen c) :: loadRankAux rank_num (file + 1) t

/-- The outer rank loop of `load_fen`: rank string number `rank_idx` lands
on physical rank `(7 - rank_idx) + rank_offset`. The source computes
`7 - rank_idx` in ℤ; for inputs with more than 8 ranks it goes negative
(squares like "a0") where ℕ truncation differs — every theorem below is
about exactly-8-rank FEN, where `rank_idx ≤ 7`. -/
def loadRanksAux (file_offset rank_offset : Nat) (rank_idx : Nat) :
    List (List Char) → List (Sq × Piece)
  | [] => []
  | r :: rest =>
      loadRankAux ((7 - rank_idx) + rank_offset) file_offset r
        ++ loadRanksAux file_offset rank_offset (rank_idx + 1) rest

/-- The file offset `load_fen` reads from `board_cfg.play_area`
(board_state.py:144-149; Python `if self.board_cfg and self.board_cfg.play_area`). -/
def loadFileOffset (bs : BoardState) : Nat :=
  match bs.board_cfg with
  | some cfg => match cfg.play_area with
    | some pa => pa.min_file
    | Option.none => 0
  | Option.none => 0

/-- The rank offset `load_fen` reads from `board_cfg.play_area`. -/
def loadRankOffset (bs : BoardState) : Nat :=
  match bs.board_cfg with
  | some cfg => match cfg.play_area with
    | some pa => pa.min_rank
    | Option.none => 0
  | Option.none => 0

/-- The `target`/`source` argument of `load_fen`/`to_fen` ('virtual' or
'physical'; any other string raises `ValueError` in `load_fen`). -/
inductive FenTarget
  | virtual | physical
deriving DecidableEq

/-- board_state.py `BoardState.load_fen`: offsets from
`board_cfg.play_area` when both are present, FEN position part split on
'/', pieces placed rank by rank, and the targeted position dict replaced
wholesale (the other dict untouched). `fen.split(' ')[0]` is
`takeWhile (· ≠ ' ')`. -/
def BoardState.load_fen (self : BoardState) (fen : List Char) (target : FenTarget) :
    BoardState :=
  let file_offset : Nat := loadFileOffset self
  let rank_offset : Nat := loadRankOffset self
  let ranks := splitSlash (fen.takeWhile (fun c => c ≠ ' '))
  let position := loadRanksAux file_offset rank_offset 0 ranks
  match target with
  | FenTarget.virtual => { self with virtual_position := position }
  | FenTarget.physical => { self with physical_position := position }

/-- The inner file loop of `to_fen` (board_state.py:192-208) for one rank:
the source reads `position.get(f"{file_char}{rank}")` for the eight file
characters in order while run-length-encoding runs of empties into digit
strings (`rank_str += str(empty_count)`), flushing a pending run before
each piece character and at the end. `n` is the pending `empty_count`. -/
def encRank (n : Nat) : List (Option Piece) → List Char
  | [] => if n > 0 then natChars n else []
  | Option.none :: t => encRank (n + 1) t
  | some p :: t => (if n > 0 then natChars n else []) ++ pieceChar p :: encRank 0 t

/-- One rank line of `to_fen`: the eight reads
`position.get(f"{file_char}{rank}")` (file characters 'a'..'h' are
`Char.ofNat (97 + f)` for `f < 8`, and the rank number is `rank_idx + 1`,
so the key is `sqName f rank_idx`), run-length-encoded by `encRank`. -/
def toFenRank (position : List (Sq × Piece)) (rank_idx : Nat) : List Char :=
  encRank 0 ((List.range 8).map fun f => posGet position (sqName f rank_idx))

/-- board_state.py `BoardState.to_fen`: ranks 8 down to 1 (rank index
`7 - i`), joined with '/'. -/
def BoardState.to_fen (self : BoardState) (source : FenTarget) : List Char :=
  let position := match source with
    | FenTarget.virtual => self.virtual_position
    | FenTarget.physical => self.physical_position
  joinSlash ((List.range 8).map fun i => toFenRank position (7 - i))

/-- Marking every storage square occupied, one `mark_occupied` call per
square name, as in the exhaustion scenario of spec §8 ("assigning to N
squares then requesting one more"). -/
def markAllOccupied (s : SmartStorage) (p : Piece) : SmartStorage :=
  (s.storage_map.map StorageSquare.square).foldl (fun st n => st.mark_occupied n p) s

/-- The twelve FEN piece letters accepted by `Piece.from_fen`. -/
def isPieceFenChar (c : Char) : Bool :=
  decide (c = 'p') || decide (c = 'n') || decide (c = 'b') || decide (c = 'r') ||
  decide (c = 'q') || decide (c = 'k') || decide (c = 'P') || decide (c = 'N') ||
  decide (c = 'B') || decide (c = 'R') || decide (c = 'Q') || decide (c = 'K')

/-- A digit usable in a canonical FEN rank: '1'..'8'. -/
def isRankDigit (c : Char) : Bool :=
  c.isDigit && decide (c.toNat ≠ 48) && decide (c.toNat ≤ 56)

/-- Scanner for a canonical FEN rank string: piece letters and digits
'1'..'8' only, no two adjacent digits (digits maximally merged); the flag
records whether the previous character was a digit. -/
def chkRank : Bool → List Char → Bool
  | _, [] => true
  | prevDigit, c :: t =>
      if isPieceFenChar c then chkRank false t
      else if isRankDigit c then (!prevDigit) && chkRank true t
      else false

/-- Number of board files a FEN rank string describes. -/
def rankWidth : List Char → Nat
  | [] => 0
  | c :: t => (if c.isDigit then c.toNat - 48 else 1) + rankWidth t

/-- A canonical FEN rank string: valid characters, digits maximally
merged, exactly 8 files. -/
def canonicalRank (p : List Char) : Bool :=
  chkRank false p && decide (rankWidth p = 8)

/-- A canonical 8-rank FEN position part (the input class of C10). -/
def canonicalFen (fen : List Char) : Bool :=
  decide ((splitSlash fen).length = 8) && (splitSlash fen).all canonicalRank

/-- The by-file contents a FEN rank string denotes: digits expand to runs
of empty squares, letters to pieces. Proof-side companion of
`loadRankAux`/`encRank`. -/
def decRank : List Char → List (Option Piece)
  | [] => []
  | c :: t =>
      (if c.isDigit then List.replicate (c.toNat - 48) Option.none
       else [some (Piece.from_fen c)]) ++ decRank t

/-- The priority formula as the spec words it (§4.3): "(storage-rank
distance from the playing area, ascending) × 100 + (file distance from
board center) × 10". The storage-rank distance of a TOP storage square
from the playing area is `rank_idx - play_area.max_rank`, of a BOTTOM one
`play_area.min_rank - rank_idx`; the file term is the same exact integer
rendering `|2·file - files| · 5` used by the code. Stated from the spec
for comparison with `calculate_priority` (claim C7). -/
def claimedPriority (cfg : BoardConfig) (file_idx rank_idx : Nat) : Int :=
  match cfg.storage_layout, cfg.play_area with
  | StorageLayout.top, some pa =>
      ((rank_idx : Int) - (pa.max_rank : Int)) * 100 +
        ((2 * (file_idx : Int) - (cfg.files : Int)).natAbs : Int) * 5
  | StorageLayout.bottom, some pa =>
      ((pa.min_rank : Int) - (rank_idx : Int)) * 100 +
        ((2 * (file_idx : Int) - (cfg.files : Int)).natAbs : Int) * 5
  | _, _ => calculate_priority cfg file_idx rank_idx

/-- 8-wide board with two TOP storage ranks (9 and 10) above an 8x8
playing area: the standard extended-board profile. -/
def cfgTop8 : BoardConfig :=
  { files := 8, ranks := 10, play_area := some ⟨0, 7, 0, 7⟩
    storage_layout := StorageLayout.top }

/-- Minimal board with a single storage square a2 above a single playing
square a1. -/
def tinyCfg : BoardConfig :=
  { files := 1, ranks := 2, play_area := some ⟨0, 0, 0, 0⟩
    storage_layout := StorageLayout.top }

/-- The tiny board with its only storage square occupied: exhausted
storage. -/
def fullTinyStorage : SmartStorage :=
  (mkSmartStorage tinyCfg StorageStrategy.nearest).mark_occupied (sqName 0 1)
    { type := PieceType.pawn, color := PieceColor.black }

/-- Two-file board with storage squares a2 (reserved white under BY_COLOR)
and b2 (reserved black). -/
def c4Cfg : BoardConfig :=
  { files := 2, ranks := 2, play_area := some ⟨0, 1, 0, 0⟩
    storage_layout := StorageLayout.top }

/-- The two-file BY_COLOR storage with the only white-reserved square
occupied. -/
def c4Storage : SmartStorage :=
  (mkSmartStorage c4Cfg StorageStrategy.by_color).mark_occupied (sqName 0 1)
    { type := PieceType.pawn, color := PieceColor.white }

/-- Plain 8x8 board configuration (whole board is playing area). -/
def std88 : BoardConfig := { files := 8, ranks := 8 }

/-- BY_COLOR storage on the extended board with a white queen parked on d9
(for the promotion witness). -/
def promoStorage : SmartStorage :=
  (mkSmartStorage cfgTop8 StorageStrategy.by_color).mark_occupied (sqName 3 8)
    { type := PieceType.queen, color := PieceColor.white }

/-- The standard chess starting position, FEN position part. -/
def startFenChars : List Char :=
  ['r','n','b','q','k','b','n','r','/','p','p','p','p','p','p','p','p','/','8','/','8',
   '/','8','/','8','/','P','P','P','P','P','P','P','P','/','R','N','B','Q','K','B','N','R']

/-! Helper lemmas about `firstMinBy`, shared by several claims. -/

theorem firstMinBy_cons {α κ : Type} (lt : κ → κ → Bool) (key : α → κ) (x y : α)
    (t : List α) :
    firstMinBy lt key x (y :: t) = firstMinBy lt key (if lt (key y) (key x) then y else x) t :=
  rfl

theorem firstMinBy_mem {α κ : Type} (lt : κ → κ → Bool) (key : α → κ) :
    ∀ (xs : List α) (x : α), firstMinBy lt key x xs = x ∨ firstMinBy lt key x xs ∈ xs := by
  intro xs
  induction xs with
  | nil => intro x; exact Or.inl rfl
  | cons y t ih =>
      intro x
      rw [firstMinBy_cons]
      rcases ih (if lt (key y) (key x) then y else x) with h | h
      · by_cases hc : lt (key y) (key x) = true
        · rw [if_pos hc] at h
          right
          rw [if_pos hc, h]
          exact List.mem_cons_self y t
        · rw [if_neg hc] at h
          left
          rw [if_neg hc]
          exact h
      · exact Or.inr (List.mem_cons_of_mem y h)

theorem firstMinBy_not_lt {α κ : Type} (lt : κ → κ → Bool) (key : α → κ)
    (Htrans : ∀ a b c, lt a b = true → lt b c = true → lt a c = true)
    (Hntrans : ∀ a b c, lt a b = false → lt b c = false → lt a c = false)
    (Hirr : ∀ a, lt a a = false) :
    ∀ (xs : List α) (x z : α), (z = x ∨ z ∈ xs) →
      lt (key z) (key (firstMinBy lt key x xs)) = false := by
  intro xs
  induction xs with
  | nil =>
      intro x z hz
      rcases hz with rfl | h
      · exact Hirr _
      · cases h
  | cons y t ih =>
      intro x z hz
      rw [firstMinBy_cons]
      by_cases hc : lt (key y) (key x) = true
      · rw [if_pos hc]
        rcases hz with rfl | h
        · have hy : lt (key y) (key (firstMinBy lt key y t)) = false :=
            ih y y (Or.inl rfl)
          cases hq : lt (key z) (key (firstMinBy lt key y t)) with
          | false => rfl
          | true => exact absurd (Htrans _ _ _ hc hq) (by simp [hy])
        · rcases List.mem_cons.mp h with rfl | h2
          · exact ih z z (Or.inl rfl)
          · exact ih y z (Or.inr h2)
      · rw [if_neg hc]
        have hcF : lt (key y) (key x) = false := by
          cases hv : lt (key y) (key x) with
          | false => rfl
          | true => exact absurd hv hc
        rcases hz with rfl | h
        · exact ih z z (Or.inl rfl)
        · rcases List.mem_cons.mp h with rfl | h2
          · exact Hntrans _ _ _ hcF (ih x x (Or.inl rfl))
          · exact ih x z (Or.inr h2)

theorem intLt_trans : ∀ a b c : Int, intLt a b = true → intLt b c = true → intLt a c = true := by
  intro a b c hab hbc
  simp only [intLt, decide_eq_true_eq] at *
  omega

theorem intLt_ntrans : ∀ a b c : Int, intLt a b = false → intLt b c = false →
    intLt a c = false := by
  intro a b c hab hbc
  simp only [intLt, decide_eq_false_iff_not] at *
  omega

theorem intLt_irr : ∀ a : Int, intLt a a = false := by
  intro a
  simp [intLt]

/-- The square chosen by each strategy helper is drawn from the available
list passed to it. -/
theorem assign_helpers_mem (st : StorageStrategy) (p : Piece) (fsq : Sq)
    (a : StorageSquare) (rest : List StorageSquare) :
    ∃ e, (e = a ∨ e ∈ rest) ∧
      (match st with
        | StorageStrategy.nearest => assign_nearest fsq a rest
        | StorageStrategy.by_color => assign_by_color p a rest
        | StorageStrategy.by_type => assign_by_type p a rest
        | StorageStrategy.chronological => assign_chronological a rest) = e.square := by
  cases st with
  | nearest =>
      exact ⟨_, firstMinBy_mem intLt _ rest a, rfl⟩
  | chronological =>
      exact ⟨_, firstMinBy_mem intLt _ rest a, rfl⟩
  | by_color =>
      show ∃ e, (e = a ∨ e ∈ rest) ∧ assign_by_color p a rest = e.square
      unfold assign_by_color
      cases hf : (a :: rest).filter (fun sq => decide (sq.reserved_for_color = some p.color)) with
      | nil => exact ⟨_, firstMinBy_mem intLt _ rest a, rfl⟩
      | cons r rs =>
          refine ⟨firstMinBy intLt StorageSquare.priority r rs, ?_, rfl⟩
          have hmem : firstMinBy intLt StorageSquare.priority r rs ∈ r :: rs := by
            rcases firstMinBy_mem intLt StorageSquare.priority rs r with h | h
            · rw [h]; exact List.mem_cons_self r rs
            · exact List.mem_cons_of_mem r h
          have : firstMinBy intLt StorageSquare.priority r rs ∈ a :: rest :=
            List.mem_of_mem_filter (hf ▸ hmem)
          exact List.mem_cons.mp this
  | by_type =>
      show ∃ e, (e = a ∨ e ∈ rest) ∧ assign_by_type p a rest = e.square
      unfold assign_by_type
      cases hf : (a :: rest).filter (fun sq => decide (sq.reserved_for_type = some p.type)) with
      | nil => exact ⟨_, firstMinBy_mem intLt _ rest a, rfl⟩
      | cons r rs =>
          refine ⟨firstMinBy intLt StorageSquare.priority r rs, ?_, rfl⟩
          have hmem : firstMinBy intLt StorageSquare.priority r rs ∈ r :: rs := by
            rcases firstMinBy_mem intLt StorageSquare.priority rs r with h | h
            · rw [h]; exact List.mem_cons_self r rs
            · exact List.mem_cons_of_mem r h
          have : firstMinBy intLt StorageSquare.priority r rs ∈ a :: rest :=
            List.mem_of_mem_filter (hf ▸ hmem)
          exact List.mem_cons.mp this

/-- C6. For every requested feedrate (with the speed limiter enabled and a
well-formed limit pair, as `__init__` configures it), `validate_speed`
returns a speed within `[min_speed_mm_min, max_speed_mm_min]`, and its
warning is non-empty exactly when the returned value differs from the
input. -/
theorem validate_speed_clamps (c : GantryController) (speed : Int)
    (hen : c.enable_speed_limit = true)
    (hminmax : c.min_speed_mm_min ≤ c.max_speed_mm_min) :
    c.min_speed_mm_min ≤ (c.validate_speed speed).1 ∧
    (c.validate_speed speed).1 ≤ c.max_speed_mm_min ∧
    ((c.validate_speed speed).2 ≠ [] ↔ (c.validate_speed speed).1 ≠ speed) := by
  unfold GantryController.validate_speed
  rw [hen]
  simp only [Bool.not_true, Bool.false_eq_true, if_false]
  split_ifs with h1 h2
  · refine ⟨hminmax, le_refl _, ?_⟩
    constructor
    · intro _; omega
    · intro _; simp [speedWarning]
  · refine ⟨le_refl _, hminmax, ?_⟩
    constructor
    · intro _; omega
    · intro _; simp [speedWarning]
  · exact ⟨by omega, by omega, by simp⟩

/-- Witness for C6 at the `__init__` configuration and the in-range
request 2000 (no clamping, no warning). -/
theorem validate_speed_clamps_witness :
    ({} : GantryController).min_speed_mm_min ≤ (({} : GantryController).validate_speed 2000).1 ∧
    (({} : GantryController).validate_speed 2000).1 ≤ ({} : GantryController).max_speed_mm_min ∧
    ((({} : GantryController).validate_speed 2000).2 ≠ [] ↔
      (({} : GantryController).validate_speed 2000).1 ≠ 2000) :=
  validate_speed_clamps {} 2000 rfl (by decide)

/-- C8 counterexample: on a freshly constructed controller (no serial
port object, state Disconnected), `emergency_stop()` attempts no write and
leaves the connection state unchanged — it does not force Alarm from every
state, contrary to the claim. -/
theorem emergency_stop_counterexample :
    ((({} : GantryController).emergency_stop true).1.state ≠ ConnectionState.alarm) ∧
    ((({} : GantryController).emergency_stop true).2 = false) := by
  decide

/-- C8 amended. `emergency_stop()` always sets the emergency flag; it
attempts the `!` write exactly when a serial port object exists, and
forces Alarm exactly when that write succeeds (on write failure it only
logs); nothing else changes. `reset_emergency_stop()` clears the flag and
changes nothing else — in particular the connection state. -/
theorem emergency_stop_amended (c : GantryController) (write_ok : Bool) :
    ((c.emergency_stop write_ok).1 =
      { c with emergency_stop_flag := true
               state := if c.ser && write_ok then ConnectionState.alarm else c.state }) ∧
    ((c.emergency_stop write_ok).2 = c.ser) ∧
    (c.reset_emergency_stop = { c with emergency_stop_flag := false }) := by
  cases hser : c.ser <;> cases write_ok <;>
    simp [GantryController.emergency_stop, GantryController.reset_emergency_stop, hser]

/-- `assign_storage_square` returns its receiver unchanged (the method
body contains no writes). -/
theorem assign_snd_eq (s : SmartStorage) (p : Piece) (fsq : Sq) :
    (s.assign_storage_square p fsq).2 = s := by
  unfold SmartStorage.assign_storage_square
  cases hfil : s.storage_map.filter (fun sq => !sq.occupied) with
  | nil => rfl
  | cons a rest => rfl

/-- Filtering to unoccupied squares gives the empty list exactly when
every square is occupied. -/
theorem filter_unoccupied_nil_iff (l : List StorageSquare) :
    l.filter (fun sq => !sq.occupied) = [] ↔ ∀ e ∈ l, e.occupied = true := by
  induction l with
  | nil => simp
  | cons x t ih => cases hx : x.occupied <;> simp [List.filter_cons, hx, ih]

/-- `assign_storage_square` returns `None` exactly when every storage
square is occupied. -/
theorem assign_none_iff (s : SmartStorage) (p : Piece) (fsq : Sq) :
    (s.assign_storage_square p fsq).1 = Option.none ↔
      ∀ e ∈ s.storage_map, e.occupied = true := by
  rw [← filter_unoccupied_nil_iff]
  unfold SmartStorage.assign_storage_square
  cases hfil : s.storage_map.filter (fun sq => !sq.occupied) with
  | nil => simp
  | cons a rest => simp

/-- Any square returned by `assign_storage_square` names an unoccupied
entry of the storage map. -/
theorem assign_some_mem (s : SmartStorage) (p : Piece) (fsq : Sq) :
    ∀ sq, (s.assign_storage_square p fsq).1 = some sq →
      ∃ e ∈ s.storage_map, e.square = sq ∧ e.occupied = false := by
  unfold SmartStorage.assign_storage_square
  cases hfil : s.storage_map.filter (fun sq => !sq.occupied) with
  | nil =>
      intro sq h
      exact absurd h (by simp)
  | cons a rest =>
      intro sq h
      obtain ⟨e, hmem, heq⟩ := assign_helpers_mem s.strategy p fsq a rest
      have hsq : e.square = sq := by
        rw [← heq]
        exact Option.some.inj h
      have hin : e ∈ a :: rest := by
        rcases hmem with h2 | h2
        · rw [h2]; exact List.mem_cons_self a rest
        · exact List.mem_cons_of_mem a h2
      have hin2 : e ∈ s.storage_map.filter (fun sq => !sq.occupied) := hfil ▸ hin
      have hmem2 : e ∈ s.storage_map := List.mem_of_mem_filter hin2
      have hocc : e.occupied = false := by
        have := List.of_mem_filter hin2
        simpa using this
      exact ⟨e, hmem2, hsq, hocc⟩

/-- C9. `assign_storage_square` is a pure query: it leaves the storage
object (hence every square's occupied flag, stored piece, priority and
reservations) unchanged, and any square it returns is still unoccupied in
the post-state map — it only becomes occupied through a separate
`mark_occupied` call. -/
theorem assign_storage_square_pure (s : SmartStorage) (p : Piece) (from_sq : Sq) :
    ((s.assign_storage_square p from_sq).2 = s) ∧
    (∀ sq, (s.assign_storage_square p from_sq).1 = some sq →
      ∃ e ∈ (s.assign_storage_square p from_sq).2.storage_map,
        e.square = sq ∧ e.occupied = false) := by
  refine ⟨assign_snd_eq s p from_sq, ?_⟩
  intro sq h
  rw [assign_snd_eq]
  exact assign_some_mem s p from_sq sq h

/-- Folding `mark_occupied` over a list of names rewrites the storage map
entrywise. -/
theorem foldl_mark_map (p : Piece) :
    ∀ (ns : List Sq) (s : SmartStorage),
      ((ns.foldl (fun st n => st.mark_occupied n p) s)).storage_map =
        s.storage_map.map (fun e => ns.foldl
          (fun e n => if e.square = n then { e with occupied := true, piece := some p } else e)
          e) := by
  intro ns
  induction ns with
  | nil => intro s; simp
  | cons n t ih =>
      intro s
      rw [List.foldl_cons, ih (s.mark_occupied n p)]
      rw [show (s.mark_occupied n p).storage_map = s.storage_map.map
        (fun e => if e.square = n then { e with occupied := true, piece := some p } else e)
        from rfl]
      rw [List.map_map]
      rfl

/-- The entrywise mark step never clears `occupied`. -/
theorem foldl_markstep_mono (p : Piece) :
    ∀ (ns : List Sq) (e : StorageSquare), e.occupied = true →
      (ns.foldl
        (fun e n => if e.square = n then { e with occupied := true, piece := some p } else e)
        e).occupied = true := by
  intro ns
  induction ns with
  | nil => intro e h; exact h
  | cons n t ih =>
      intro e h
      rw [List.foldl_cons]
      apply ih
      by_cases hc : e.square = n
      · simp [hc]
      · simp [hc, h]

/-- After folding the mark step over a name list containing the entry's
name, the entry is occupied. -/
theorem foldl_markstep_occupied (p : Piece) :
    ∀ (ns : List Sq) (e : StorageSquare), e.square ∈ ns →
      (ns.foldl
        (fun e n => if e.square = n then { e with occupied := true, piece := some p } else e)
        e).occupied = true := by
  intro ns
  induction ns with
  | nil => intro e h; cases h
  | cons n t ih =>
      intro e h
      rw [List.foldl_cons]
      by_cases hc : e.square = n
      · apply foldl_markstep_mono
        simp [hc]
      · have ht : e.square ∈ t := by
          rcases List.mem_cons.mp h with h1 | h1
          · exact absurd h1 hc
          · exact h1
        rw [if_neg hc]
        exact ih e ht

/-- After `markAllOccupied`, every entry of the storage map is occupied. -/
theorem markAllOccupied_all (s : SmartStorage) (p : Piece) :
    ∀ e ∈ (markAllOccupied s p).storage_map, e.occupied = true := by
  intro e he
  unfold markAllOccupied at he
  rw [foldl_mark_map] at he
  obtain ⟨e0, he0, rfl⟩ := List.mem_map.mp he
  apply foldl_markstep_occupied
  exact List.mem_map_of_mem StorageSquare.square he0

/-- C5. For every piece and (well-formed) source square,
`assign_storage_square` returns `None` exactly when every storage square
is occupied; any returned square is an unoccupied entry of the map (never
an already-occupied one); and after marking every storage square occupied,
one more assignment request returns `None` (the embedding is total, so no
exception is raised on this path — indeed the source returns before
touching `from_square` when storage is full). -/
theorem assign_storage_square_exhaustion (s : SmartStorage) (p : Piece) (f r : Nat) :
    ((s.assign_storage_square p (sqName f r)).1 = Option.none ↔
      ∀ e ∈ s.storage_map, e.occupied = true) ∧
    (∀ sq, (s.assign_storage_square p (sqName f r)).1 = some sq →
      ∃ e ∈ s.storage_map, e.square = sq ∧ e.occupied = false) ∧
    (∀ p2 : Piece,
      ((markAllOccupied s p2).assign_storage_square p (sqName f r)).1 = Option.none) := by
  refine ⟨assign_none_iff s p (sqName f r), assign_some_mem s p (sqName f r), ?_⟩
  intro p2
  rw [assign_none_iff]
  exact markAllOccupied_all s p2

/-- Witness for C5: the exhausted one-square storage answers `None` to any
further request, and the fresh one-square storage hands out its unoccupied
square a2. -/
theorem assign_storage_square_exhaustion_witness :
    (fullTinyStorage.assign_storage_square
      { type := PieceType.queen, color := PieceColor.white } (sqName 0 0)).1 = Option.none ∧
    ∃ e ∈ (mkSmartStorage tinyCfg StorageStrategy.nearest).storage_map,
      e.square = sqName 0 1 ∧ e.occupied = false :=
  ⟨((assign_storage_square_exhaustion fullTinyStorage
      { type := PieceType.queen, color := PieceColor.white } 0 0).1).mpr (by decide),
    (assign_storage_square_exhaustion (mkSmartStorage tinyCfg StorageStrategy.nearest)
      { type := PieceType.queen, color := PieceColor.white } 0 0).2.1 (sqName 0 1) (by decide)⟩

/-- Witness for C9: on the BY_COLOR extended-board storage, assigning a
square for a captured black pawn from e4 returns a square (e9) that is in
the unchanged map and unoccupied. -/
theorem assign_storage_square_pure_witness :
    ((promoStorage.assign_storage_square
        { type := PieceType.pawn, color := PieceColor.black } (sqName 4 3)).2 = promoStorage) ∧
    (∃ e ∈ (promoStorage.assign_storage_square
        { type := PieceType.pawn, color := PieceColor.black } (sqName 4 3)).2.storage_map,
      e.square = sqName 4 8 ∧ e.occupied = false) :=
  ⟨(assign_storage_square_pure promoStorage _ (sqName 4 3)).1,
    (assign_storage_square_pure promoStorage _ (sqName 4 3)).2 (sqName 4 8) (by decide)⟩

/-- The element picked by `firstMinBy` on priorities has minimal priority
among the candidates. -/
theorem firstMinBy_priority_le (a : StorageSquare) (rest : List StorageSquare) :
    ∀ z, (z = a ∨ z ∈ rest) →
      (firstMinBy intLt StorageSquare.priority a rest).priority ≤ z.priority := by
  intro z hz
  have h := firstMinBy_not_lt intLt StorageSquare.priority intLt_trans intLt_ntrans intLt_irr
    rest a z hz
  simp only [intLt, decide_eq_false_iff_not, not_lt] at h
  exact h

/-- C4 counterexample: on the two-file BY_COLOR storage with the only
white-reserved square occupied, assigning a white piece returns b2 — a
square reserved for black; the map contains no unreserved square at all,
so the fallback is not "the lowest-priority unoccupied unreserved square"
as claimed. -/
theorem by_color_fallback_counterexample :
    (c4Storage.assign_storage_square { type := PieceType.pawn, color := PieceColor.white }
        (sqName 0 0)).1 = some (sqName 1 1) ∧
    (∀ e ∈ c4Storage.storage_map, e.square = sqName 1 1 →
      e.reserved_for_color = some PieceColor.black) ∧
    (∀ e ∈ c4Storage.storage_map, e.reserved_for_color ≠ Option.none) := by
  decide

/-- C4 amended. Under BY_COLOR, reservations split files at `files / 2`
(file index with `2·file < files` reserved white, the rest black — so
every storage square is reserved for one of the two colors), and
`assign_storage_square` returns a lowest-priority unoccupied square
reserved for the piece's color when one exists; when none is free it falls
back to a lowest-priority unoccupied square regardless of reservation
(under BY_COLOR necessarily one reserved for the opposite color), not to
an "unreserved" square. -/
theorem by_color_assignment_amended (cfg : BoardConfig) (s : SmartStorage) (p : Piece)
    (fsq : Sq) (hs : s.strategy = StorageStrategy.by_color) :
    (∀ e ∈ (mkSmartStorage cfg StorageStrategy.by_color).storage_map,
      e.reserved_for_color =
        some (if 2 * e.file_idx < cfg.files then PieceColor.white else PieceColor.black)) ∧
    ((∃ e ∈ s.storage_map, e.occupied = false ∧ e.reserved_for_color = some p.color) →
      ∃ sq, (s.assign_storage_square p fsq).1 = some sq ∧
        ∃ e ∈ s.storage_map, e.square = sq ∧ e.occupied = false ∧
          e.reserved_for_color = some p.color ∧
          ∀ e2 ∈ s.storage_map, e2.occupied = false →
            e2.reserved_for_color = some p.color → e.priority ≤ e2.priority) ∧
    ((¬ ∃ e ∈ s.storage_map, e.occupied = false ∧ e.reserved_for_color = some p.color) →
      (∃ e ∈ s.storage_map, e.occupied = false) →
      ∃ sq, (s.assign_storage_square p fsq).1 = some sq ∧
        ∃ e ∈ s.storage_map, e.square = sq ∧ e.occupied = false ∧
          ∀ e2 ∈ s.storage_map, e2.occupied = false → e.priority ≤ e2.priority) := by
  refine ⟨?_, ?_, ?_⟩
  · -- reservations of the freshly built map
    intro e he
    unfold mkSmartStorage build_storage_map at he
    simp only [List.mem_flatten, List.mem_map] at he
    obtain ⟨l, ⟨f, hf, rfl⟩, hel⟩ := he
    unfold buildStorageCol at hel
    simp only [List.mem_filterMap] at hel
    obtain ⟨r, hr, hg⟩ := hel
    by_cases hplay : cfg.is_playing_square f r = true
    · rw [if_pos hplay] at hg
      cases hg
    · rw [if_neg hplay] at hg
      have he2 := Option.some.inj hg
      unfold apply_strategy_reservations at he2
      by_cases hlt : 2 * f < cfg.files
      · rw [if_pos hlt] at he2
        rw [← he2]
        simp [hlt]
      · rw [if_neg hlt] at he2
        rw [← he2]
        simp [hlt]
  · -- a reserved square is free
    intro ⟨e, hemem, heocc, heres⟩
    have hefil : e ∈ s.storage_map.filter (fun sq => !sq.occupied) :=
      List.mem_filter.mpr ⟨hemem, by simp [heocc]⟩
    unfold SmartStorage.assign_storage_square
    cases hfil : s.storage_map.filter (fun sq => !sq.occupied) with
    | nil => rw [hfil] at hefil; cases hefil
    | cons a rest =>
        rw [hfil] at hefil
        rw [hs]
        refine ⟨assign_by_color p a rest, rfl, ?_⟩
        unfold assign_by_color
        cases hres : (a :: rest).filter
            (fun sq => decide (sq.reserved_for_color = some p.color)) with
        | nil =>
            exfalso
            have : e ∈ (a :: rest).filter
                (fun sq => decide (sq.reserved_for_color = some p.color)) :=
              List.mem_filter.mpr ⟨hefil, by simp [heres]⟩
            rw [hres] at this
            cases this
        | cons r rs =>
            set m := firstMinBy intLt StorageSquare.priority r rs with hm
            have hmrr : m ∈ r :: rs := by
              rcases firstMinBy_mem intLt StorageSquare.priority rs r with h | h
              · rw [hm, h]; exact List.mem_cons_self r rs
              · exact List.mem_cons_of_mem r h
            have hmfil : m ∈ (a :: rest).filter
                (fun sq => decide (sq.reserved_for_color = some p.color)) := hres ▸ hmrr
            have hmres : m.reserved_for_color = some p.color := by
              have := List.of_mem_filter hmfil
              simpa using this
            have hmav : m ∈ a :: rest := List.mem_of_mem_filter hmfil
            have hmav2 : m ∈ s.storage_map.filter (fun sq => !sq.occupied) := hfil ▸ hmav
            have hmmem : m ∈ s.storage_map := List.mem_of_mem_filter hmav2
            have hmocc : m.occupied = false := by
              have := List.of_mem_filter hmav2
              simpa using this
            refine ⟨m, hmmem, rfl, hmocc, hmres, ?_⟩
            intro e2 he2mem he2occ he2res
            have he2fil : e2 ∈ s.storage_map.filter (fun sq => !sq.occupied) :=
              List.mem_filter.mpr ⟨he2mem, by simp [he2occ]⟩
            rw [hfil] at he2fil
            have he2fil2 : e2 ∈ (a :: rest).filter
                (fun sq => decide (sq.reserved_for_color = some p.color)) :=
              List.mem_filter.mpr ⟨he2fil, by simp [he2res]⟩
            rw [hres] at he2fil2
            exact firstMinBy_priority_le r rs e2 (List.mem_cons.mp he2fil2)
  · -- no reserved square is free
    intro hnores ⟨e, hemem, heocc⟩
    have hefil : e ∈ s.storage_map.filter (fun sq => !sq.occupied) :=
      List.mem_filter.mpr ⟨hemem, by simp [heocc]⟩
    unfold SmartStorage.assign_storage_square
    cases hfil : s.storage_map.filter (fun sq => !sq.occupied) with
    | nil => rw [hfil] at hefil; cases hefil
    | cons a rest =>
        rw [hs]
        refine ⟨assign_by_color p a rest, rfl, ?_⟩
        unfold assign_by_color
        cases hres : (a :: rest).filter
            (fun sq => decide (sq.reserved_for_color = some p.color)) with
        | cons r rs =>
            exfalso
            have hrfil : r ∈ (a :: rest).filter
                (fun sq => decide (sq.reserved_for_color = some p.color)) := by
              rw [hres]; exact List.mem_cons_self r rs
            have hrres : r.reserved_for_color = some p.color := by
              have := List.of_mem_filter hrfil
              simpa using this
            have hrav : r ∈ a :: rest := List.mem_of_mem_filter hrfil
            have hrav2 : r ∈ s.storage_map.filter (fun sq => !sq.occupied) := hfil ▸ hrav
            have hrmem : r ∈ s.storage_map := List.mem_of_mem_filter hrav2
            have hrocc : r.occupied = false := by
              have := List.of_mem_filter hrav2
              simpa using this
            exact hnores ⟨r, hrmem, hrocc, hrres⟩
        | nil =>
            set m := firstMinBy intLt StorageSquare.priority a rest with hm
            have hmav : m ∈ a :: rest := by
              rcases firstMinBy_mem intLt StorageSquare.priority rest a with h | h
              · rw [hm, h]; exact List.mem_cons_self a rest
              · exact List.mem_cons_of_mem a h
            have hmav2 : m ∈ s.storage_map.filter (fun sq => !sq.occupied) := hfil ▸ hmav
            have hmmem : m ∈ s.storage_map := List.mem_of_mem_filter hmav2
            have hmocc : m.occupied = false := by
              have := List.of_mem_filter hmav2
              simpa using this
            refine ⟨m, hmmem, rfl, hmocc, ?_⟩
            intro e2 he2mem he2occ
            have he2fil : e2 ∈ s.storage_map.filter (fun sq => !sq.occupied) :=
              List.mem_filter.mpr ⟨he2mem, by simp [he2occ]⟩
            rw [hfil] at he2fil
            exact firstMinBy_priority_le a rest e2 (List.mem_cons.mp he2fil)

/-- Witness for C4 (amended): on the two-file BY_COLOR storage, a black
piece gets the free black-reserved square b2, lowest-priority among the
free black-reserved squares. -/
theorem by_color_assignment_amended_witness :
    ∃ sq, (c4Storage.assign_storage_square
        { type := PieceType.pawn, color := PieceColor.black } (sqName 0 0)).1 = some sq ∧
      ∃ e ∈ c4Storage.storage_map, e.square = sq ∧ e.occupied = false ∧
        e.reserved_for_color = some PieceColor.black ∧
        ∀ e2 ∈ c4Storage.storage_map, e2.occupied = false →
          e2.reserved_for_color = some PieceColor.black → e.priority ≤ e2.priority :=
  (by_color_assignment_amended c4Cfg c4Storage
    { type := PieceType.pawn, color := PieceColor.black } (sqName 0 0) rfl).2.1 (by decide)

/-- C7 counterexample: on the extended TOP board (play ranks 1-8, storage
ranks 9-10), the code's priority for storage square a9 (file 0, rank index
8) is 840 = rank_idx·100 + 40, while the claimed formula "(storage-rank
distance from the playing area)·100 + (file distance from center)·10"
gives 140 = 1·100 + 40. -/
theorem priority_formula_counterexample :
    calculate_priority cfgTop8 0 8 = 840 ∧ claimedPriority cfgTop8 0 8 = 140 ∧
    calculate_priority cfgTop8 0 8 ≠ claimedPriority cfgTop8 0 8 := by
  decide

/-- C7 amended. For TOP the priority is `rank_idx·100 + |2·file−files|·5`
(for BOTTOM `(ranks−rank_idx)·100 + |2·file−files|·5`) — an affine shift
of the claimed distance formula, not the distance formula itself; the
ordering consequence survives: a square strictly nearer the playing area
(lower rank index for TOP, higher for BOTTOM) whose central-file distance
is no larger always receives strictly lower priority. -/
theorem calculate_priority_amended (cfg : BoardConfig) (f r f2 r2 : Nat) :
    (cfg.storage_layout = StorageLayout.top →
      calculate_priority cfg f r =
        (r : Int) * 100 + ((2 * (f : Int) - (cfg.files : Int)).natAbs : Int) * 5 ∧
      (r < r2 →
        (2 * (f : Int) - (cfg.files : Int)).natAbs ≤ (2 * (f2 : Int) - (cfg.files : Int)).natAbs →
        calculate_priority cfg f r < calculate_priority cfg f2 r2)) ∧
    (cfg.storage_layout = StorageLayout.bottom →
      calculate_priority cfg f r =
        ((cfg.ranks : Int) - (r : Int)) * 100 +
          ((2 * (f : Int) - (cfg.files : Int)).natAbs : Int) * 5 ∧
      (r2 < r →
        (2 * (f : Int) - (cfg.files : Int)).natAbs ≤ (2 * (f2 : Int) - (cfg.files : Int)).natAbs →
        calculate_priority cfg f r < calculate_priority cfg f2 r2)) := by
  constructor
  · intro h
    simp only [calculate_priority, h]
    refine ⟨trivial, ?_⟩
    intro hr hf
    have hf5 : ((2 * (f : Int) - (cfg.files : Int)).natAbs : Int) ≤
        ((2 * (f2 : Int) - (cfg.files : Int)).natAbs : Int) := by exact_mod_cast hf
    have hr5 : (r : Int) < (r2 : Int) := by exact_mod_cast hr
    generalize ((2 * (f : Int) - (cfg.files : Int)).natAbs : Int) = A at hf5 ⊢
    generalize ((2 * (f2 : Int) - (cfg.files : Int)).natAbs : Int) = B at hf5 ⊢
    omega
  · intro h
    simp only [calculate_priority, h]
    refine ⟨trivial, ?_⟩
    intro hr hf
    have hf5 : ((2 * (f : Int) - (cfg.files : Int)).natAbs : Int) ≤
        ((2 * (f2 : Int) - (cfg.files : Int)).natAbs : Int) := by exact_mod_cast hf
    have hr5 : (r2 : Int) < (r : Int) := by exact_mod_cast hr
    generalize ((2 * (f : Int) - (cfg.files : Int)).natAbs : Int) = A at hf5 ⊢
    generalize ((2 * (f2 : Int) - (cfg.files : Int)).natAbs : Int) = B at hf5 ⊢
    omega

/-- Witness for C7 (amended), on the extended TOP board: the formula at a9
and the strict ordering a9 before a10 (nearer rank, no farther file). -/
theorem calculate_priority_amended_witness :
    calculate_priority cfgTop8 0 8 =
      ((8 : Nat) : Int) * 100 +
        ((2 * ((0 : Nat) : Int) - (cfgTop8.files : Int)).natAbs : Int) * 5 ∧
    calculate_priority cfgTop8 0 8 < calculate_priority cfgTop8 0 9 :=
  ⟨((calculate_priority_amended cfgTop8 0 8 0 9).1 rfl).1,
    ((calculate_priority_amended cfgTop8 0 8 0 9).1 rfl).2 (by decide) (by decide)⟩

/-- C2 (the code evaluated at the failing input): `find_edge_push_location`
on a plain 8x8 board raises `AttributeError` for every `BoardState` and
every source square, because `BoardState` has no `get_piece` method and
the freshly built manager has unoccupied locations whose board-emptiness
the filter must consult. It therefore never performs the claimed
(priority, distance) selection on a `BoardState`. -/
theorem find_edge_push_location_raises (bs : BoardState) (fsq : Sq) :
    (mkEdgePushManager std88).find_edge_push_location bs fsq = Except.error () :=
  rfl

/-- C1 (the code evaluated at the failing input): with storage exhausted,
`_plan_capture` neither falls back to the edge/tool strategies nor returns
"no plan": it returns a full 18-action plan whose storage-bound MoveTo
targets the sentinel string "storage_full_fallback", which is not a square
of the board (the fallback chooser `_get_capture_removal_strategy` has no
caller in the repository). -/
theorem plan_capture_sentinel :
    (plan_capture fullTinyStorage
        { from_square := sqName 4 3, to_square := sqName 3 4
          is_capture := true, captured_square := some (sqName 3 4) }
        { type := PieceType.pawn, color := PieceColor.black }).1.length = 18 ∧
    ({ action_type := ActionType.move_to, square := some storage_full_fallback,
        duration_ms := 0 } : GantryAction) ∈
      (plan_capture fullTinyStorage
        { from_square := sqName 4 3, to_square := sqName 3 4
          is_capture := true, captured_square := some (sqName 3 4) }
        { type := PieceType.pawn, color := PieceColor.black }).1 ∧
    (∀ f : Fin tinyCfg.files, ∀ r : Fin tinyCfg.ranks,
      sqName f.val r.val ≠ storage_full_fallback) := by
  decide

/-- A successful `find_piece_in_storage` names an occupied entry holding
the matching piece. -/
theorem find_piece_some (s : SmartStorage) (t : PieceType) (c : PieceColor) (sq : Sq) :
    s.find_piece_in_storage t c = some sq →
    ∃ e ∈ s.storage_map, e.square = sq ∧ e.occupied = true ∧
      e.piece = some { type := t, color := c } := by
  intro h
  unfold SmartStorage.find_piece_in_storage at h
  obtain ⟨e, hfind, hsq⟩ := Option.map_eq_some'.mp h
  have hmem := List.mem_of_find?_eq_some hfind
  have hpred := List.find?_some hfind
  rw [Bool.and_eq_true] at hpred
  obtain ⟨hocc, hmatch⟩ := hpred
  refine ⟨e, hmem, hsq, hocc, ?_⟩
  cases hp : e.piece with
  | none => rw [hp] at hmatch; cases hmatch
  | some p =>
      rw [hp] at hmatch
      rw [Bool.and_eq_true, decide_eq_true_eq, decide_eq_true_eq] at hmatch
      obtain ⟨h1, h2⟩ := hmatch
      cases p
      simp_all

/-- C3. `plan_promotion` returns no plan when no matching promoted piece
resides in storage, and no plan when storage has no free square for the
pawn; otherwise it returns exactly the 18-action sequence that first moves
the pawn from `from` into the freshly assigned storage square and then
moves the located promoted piece from its storage square to `to`, and in
the resulting storage the pawn's square is marked occupied (holding the
pawn) and the promoted piece's square is marked empty. The `Nodup`
hypothesis is dict-key uniqueness of the Python storage map. -/
theorem plan_promotion_spec (s : SmartStorage) (from_sq to_sq : Sq)
    (pt : PieceType) (pc : PieceColor)
    (hnd : (s.storage_map.map StorageSquare.square).Nodup) :
    (s.find_piece_in_storage pt pc = Option.none →
      (plan_promotion s from_sq to_sq pt pc).1 = Option.none) ∧
    (∀ promSq, s.find_piece_in_storage pt pc = some promSq →
      (s.assign_storage_square { type := PieceType.pawn, color := pc } to_sq).1 = Option.none →
      (plan_promotion s from_sq to_sq pt pc).1 = Option.none) ∧
    (∀ promSq pawnSq, s.find_piece_in_storage pt pc = some promSq →
      (s.assign_storage_square { type := PieceType.pawn, color := pc } to_sq).1 = some pawnSq →
      pawnSq ≠ promSq ∧
      (plan_promotion s from_sq to_sq pt pc).1 = some
        [ { action_type := ActionType.move_to, square := some from_sq },
          { action_type := ActionType.lift_down },
          { action_type := ActionType.grip_close },
          { action_type := ActionType.wait, duration_ms := 200 },
          { action_type := ActionType.lift_up },
          { action_type := ActionType.move_to, square := some pawnSq },
          { action_type := ActionType.lift_down },
          { action_type := ActionType.grip_open },
          { action_type := ActionType.lift_up },
          { action_type := ActionType.move_to, square := some promSq },
          { action_type := ActionType.lift_down },
          { action_type := ActionType.grip_close },
          { action_type := ActionType.wait, duration_ms := 200 },
          { action_type := ActionType.lift_up },
          { action_type := ActionType.move_to, square := some to_sq },
          { action_type := ActionType.lift_down },
          { action_type := ActionType.grip_open },
          { action_type := ActionType.lift_up } ] ∧
      (∃ e ∈ (plan_promotion s from_sq to_sq pt pc).2.storage_map,
        e.square = pawnSq ∧ e.occupied = true ∧
          e.piece = some { type := PieceType.pawn, color := pc }) ∧
      (∃ e ∈ (plan_promotion s from_sq to_sq pt pc).2.storage_map,
        e.square = promSq ∧ e.occupied = false ∧ e.piece = Option.none)) := by
  refine ⟨?_, ?_, ?_⟩
  · intro h
    simp [plan_promotion, h]
  · intro promSq hfind hassign
    have hpair : s.assign_storage_square { type := PieceType.pawn, color := pc } to_sq =
        (Option.none, s) := by
      have h2 := assign_snd_eq s { type := PieceType.pawn, color := pc } to_sq
      exact Prod.ext hassign h2
    simp [plan_promotion, hfind, hpair]
  · intro promSq pawnSq hfind hassign
    have hpair : s.assign_storage_square { type := PieceType.pawn, color := pc } to_sq =
        (some pawnSq, s) := by
      have h2 := assign_snd_eq s { type := PieceType.pawn, color := pc } to_sq
      exact Prod.ext hassign h2
    obtain ⟨e2, he2mem, he2sq, he2occ⟩ :=
      assign_some_mem s { type := PieceType.pawn, color := pc } to_sq pawnSq hassign
    obtain ⟨e1, he1mem, he1sq, he1occ, he1piece⟩ := find_piece_some s pt pc promSq hfind
    have hne : pawnSq ≠ promSq := by
      intro heq
      have hsq : e2.square = e1.square := by rw [he2sq, he1sq, heq]
      have : e2 = e1 := List.inj_on_of_nodup_map hnd he2mem he1mem hsq
      rw [this] at he2occ
      rw [he1occ] at he2occ
      cases he2occ
    have hplan : plan_promotion s from_sq to_sq pt pc =
        (some
          [ { action_type := ActionType.move_to, square := some from_sq },
            { action_type := ActionType.lift_down },
            { action_type := ActionType.grip_close },
            { action_type := ActionType.wait, duration_ms := 200 },
            { action_type := ActionType.lift_up },
            { action_type := ActionType.move_to, square := some pawnSq },
            { action_type := ActionType.lift_down },
            { action_type := ActionType.grip_open },
            { action_type := ActionType.lift_up },
            { action_type := ActionType.move_to, square := some promSq },
            { action_type := ActionType.lift_down },
            { action_type := ActionType.grip_close },
            { action_type := ActionType.wait, duration_ms := 200 },
            { action_type := ActionType.lift_up },
            { action_type := ActionType.move_to, square := some to_sq },
            { action_type := ActionType.lift_down },
            { action_type := ActionType.grip_open },
            { action_type := ActionType.lift_up } ],
          ((s.mark_occupied pawnSq { type := PieceType.pawn, color := pc }).mark_empty
            promSq)) := by
      simp [plan_promotion, hfind, hpair]
    refine ⟨hne, by rw [hplan], ?_, ?_⟩
    · -- the pawn's storage square ends occupied, holding the pawn
      rw [hplan]
      have h1 : (if e2.square = pawnSq then
          { e2 with occupied := true, piece := some { type := PieceType.pawn, color := pc } }
          else e2) =
          { e2 with occupied := true, piece := some { type := PieceType.pawn, color := pc } } :=
        if_pos he2sq
      have h2 : ({ e2 with
          occupied := true
          piece := some { type := PieceType.pawn, color := pc } } : StorageSquare).square =
          pawnSq := he2sq
      have hmemf := List.mem_map_of_mem (fun sq => if sq.square = promSq
          then { sq with occupied := false, piece := Option.none } else sq)
        (List.mem_map_of_mem (fun sq => if sq.square = pawnSq
          then { sq with occupied := true,
                         piece := some { type := PieceType.pawn, color := pc } } else sq)
          he2mem)
      dsimp only at hmemf
      rw [h1] at hmemf
      rw [if_neg (by rw [h2]; exact hne)] at hmemf
      exact ⟨_, hmemf, he2sq, rfl, rfl⟩
    · -- the promoted piece's storage square ends empty
      rw [hplan]
      have h1 : (if e1.square = pawnSq then
          { e1 with occupied := true, piece := some { type := PieceType.pawn, color := pc } }
          else e1) = e1 :=
        if_neg (by rw [he1sq]; exact Ne.symm hne)
      have hmemf := List.mem_map_of_mem (fun sq => if sq.square = promSq
          then { sq with occupied := false, piece := Option.none } else sq)
        (List.mem_map_of_mem (fun sq => if sq.square = pawnSq
          then { sq with occupied := true,
                         piece := some { type := PieceType.pawn, color := pc } } else sq)
          he1mem)
      dsimp only at hmemf
      rw [h1] at hmemf
      rw [if_pos he1sq] at hmemf
      exact ⟨_, hmemf, he1sq, rfl, rfl⟩

/-- Witness for C3: promoting e7-e8 to a white queen with the queen parked
on d9 parks the pawn on c9 (marked occupied) and empties d9, with the full
18-action plan. -/
theorem plan_promotion_spec_witness :
    sqName 2 8 ≠ sqName 3 8 ∧
    (plan_promotion promoStorage (sqName 4 6) (sqName 4 7)
        PieceType.queen PieceColor.white).1 = some
      [ { action_type := ActionType.move_to, square := some (sqName 4 6) },
        { action_type := ActionType.lift_down },
        { action_type := ActionType.grip_close },
        { action_type := ActionType.wait, duration_ms := 200 },
        { action_type := ActionType.lift_up },
        { action_type := ActionType.move_to, square := some (sqName 2 8) },
        { action_type := ActionType.lift_down },
        { action_type := ActionType.grip_open },
        { action_type := ActionType.lift_up },
        { action_type := ActionType.move_to, square := some (sqName 3 8) },
        { action_type := ActionType.lift_down },
        { action_type := ActionType.grip_close },
        { action_type := ActionType.wait, duration_ms := 200 },
        { action_type := ActionType.lift_up },
        { action_type := ActionType.move_to, square := some (sqName 4 7) },
        { action_type := ActionType.lift_down },
        { action_type := ActionType.grip_open },
        { action_type := ActionType.lift_up } ] ∧
    (∃ e ∈ (plan_promotion promoStorage (sqName 4 6) (sqName 4 7)
        PieceType.queen PieceColor.white).2.storage_map,
      e.square = sqName 2 8 ∧ e.occupied = true ∧
        e.piece = some { type := PieceType.pawn, color := PieceColor.white }) ∧
    (∃ e ∈ (plan_promotion promoStorage (sqName 4 6) (sqName 4 7)
        PieceType.queen PieceColor.white).2.storage_map,
      e.square = sqName 3 8 ∧ e.occupied = false ∧ e.piece = Option.none) :=
  (plan_promotion_spec promoStorage (sqName 4 6) (sqName 4 7)
    PieceType.queen PieceColor.white (by decide)).2.2 (sqName 3 8) (sqName 2 8)
    (by decide) (by decide)

/-! Lemmas for the FEN round-trip (C10). -/

theorem splitSlash_ne_nil : ∀ l : List Char, splitSlash l ≠ [] := by
  intro l
  cases l with
  | nil => simp [splitSlash]
  | cons c t =>
      unfold splitSlash
      by_cases hc : c = '/'
      · simp [hc]
      · rw [if_neg hc]
        cases h : splitSlash t with
        | nil => simp
        | cons a b => simp

theorem joinSlash_cons (c : Char) (h : List Char) (r : List (List Char)) :
    joinSlash ((c :: h) :: r) = c :: joinSlash (h :: r) := by
  cases r with
  | nil => rfl
  | cons y rr => rfl

theorem joinSlash_splitSlash : ∀ l : List Char, joinSlash (splitSlash l) = l := by
  intro l
  induction l with
  | nil => rfl
  | cons c t ih =>
      by_cases hc : c = '/'
      · subst hc
        have hstep : splitSlash ('/' :: t) = [] :: splitSlash t := by simp [splitSlash]
        rw [hstep]
        cases h : splitSlash t with
        | nil => exact absurd h (splitSlash_ne_nil t)
        | cons a b =>
            show '/' :: joinSlash (a :: b) = '/' :: t
            rw [← h, ih]
      · have hstep : ∀ a b, splitSlash t = a :: b →
            splitSlash (c :: t) = (c :: a) :: b := by
          intro a b hab
          unfold splitSlash
          rw [if_neg hc, hab]
        cases h : splitSlash t with
        | nil => exact absurd h (splitSlash_ne_nil t)
        | cons a b =>
            rw [hstep a b h, joinSlash_cons, ← h, ih]

theorem takeWhile_eq_self {p : Char → Bool} :
    ∀ l : List Char, (∀ c ∈ l, p c = true) → l.takeWhile p = l := by
  intro l
  induction l with
  | nil => intro _; rfl
  | cons c t ih =>
      intro h
      rw [List.takeWhile_cons, h c (List.mem_cons_self c t),
        ih (fun d hd => h d (List.mem_cons_of_mem c hd))]
      simp

theorem mem_splitSlash_cover : ∀ (l : List Char) (c : Char), c ∈ l →
    c = '/' ∨ ∃ part ∈ splitSlash l, c ∈ part := by
  intro l
  induction l with
  | nil => intro c hc; cases hc
  | cons d t ih =>
      intro c hc
      by_cases hd : d = '/'
      · subst hd
        have hstep : splitSlash ('/' :: t) = [] :: splitSlash t := by simp [splitSlash]
        rcases List.mem_cons.mp hc with h1 | h1
        · exact Or.inl h1
        · rcases ih c h1 with h2 | ⟨part, hp1, hp2⟩
          · exact Or.inl h2
          · exact Or.inr ⟨part, by rw [hstep]; exact List.mem_cons_of_mem _ hp1, hp2⟩
      · cases h : splitSlash t with
        | nil => exact absurd h (splitSlash_ne_nil t)
        | cons a b =>
            have hstep : splitSlash (d :: t) = (d :: a) :: b := by
              unfold splitSlash
              rw [if_neg hd, h]
            rcases List.mem_cons.mp hc with h1 | h1
            · refine Or.inr ⟨d :: a, ?_, ?_⟩
              · rw [hstep]; exact List.mem_cons_self _ _
              · rw [h1]; exact List.mem_cons_self _ _
            · rcases ih c h1 with h2 | ⟨part, hp1, hp2⟩
              · exact Or.inl h2
              · rw [h] at hp1
                rcases List.mem_cons.mp hp1 with h3 | h3
                · refine Or.inr ⟨d :: a, by rw [hstep]; exact List.mem_cons_self _ _, ?_⟩
                  rw [← h3]
                  exact List.mem_cons_of_mem d hp2
                · exact Or.inr ⟨part, by rw [hstep]; exact List.mem_cons_of_mem _ h3, hp2⟩

theorem chkRank_chars : ∀ (p : List Char) (b : Bool), chkRank b p = true →
    ∀ c ∈ p, isPieceFenChar c = true ∨ isRankDigit c = true := by
  intro p
  induction p with
  | nil => intro b _ c hc; cases hc
  | cons d t ih =>
      intro b h c hc
      unfold chkRank at h
      by_cases hp : isPieceFenChar d = true
      · rw [if_pos hp] at h
        rcases List.mem_cons.mp hc with h1 | h1
        · exact Or.inl (h1 ▸ hp)
        · exact ih false h c h1
      · rw [if_neg hp] at h
        by_cases hd : isRankDigit d = true
        · rw [if_pos hd] at h
          rw [Bool.and_eq_true] at h
          rcases List.mem_cons.mp hc with h1 | h1
          · exact Or.inr (h1 ▸ hd)
          · exact ih true h.2 c h1
        · rw [if_neg hd] at h
          cases h

theorem valid_char_ne_space (c : Char)
    (h : isPieceFenChar c = true ∨ isRankDigit c = true) : decide (c ≠ ' ') = true := by
  rcases h with h | h
  · simp only [isPieceFenChar, Bool.or_eq_true, decide_eq_true_eq] at h
    rcases h with ((((((((((h | h) | h) | h) | h) | h) | h) | h) | h) | h) | h) | h <;>
      subst h <;> decide
  · simp only [decide_eq_true_eq]
    intro heq
    subst heq
    simp [isRankDigit] at h

theorem canonicalFen_no_space (fen : List Char) (h : canonicalFen fen = true) :
    fen.takeWhile (fun c => decide (c ≠ ' ')) = fen := by
  apply takeWhile_eq_self
  intro c hc
  rcases mem_splitSlash_cover fen c hc with h1 | ⟨part, hp1, hp2⟩
  · subst h1; decide
  · unfold canonicalFen at h
    rw [Bool.and_eq_true, List.all_eq_true] at h
    have hcan := h.2 part hp1
    unfold canonicalRank at hcan
    rw [Bool.and_eq_true] at hcan
    exact valid_char_ne_space c (chkRank_chars part false hcan.1 c hp2)

theorem piece_not_digit (c : Char) (h : isPieceFenChar c = true) : c.isDigit = false := by
  simp only [isPieceFenChar, Bool.or_eq_true, decide_eq_true_eq] at h
  rcases h with ((((((((((h | h) | h) | h) | h) | h) | h) | h) | h) | h) | h) | h <;>
    subst h <;> decide

theorem pieceChar_from_fen (c : Char) (h : isPieceFenChar c = true) :
    pieceChar (Piece.from_fen c) = c := by
  simp only [isPieceFenChar, Bool.or_eq_true, decide_eq_true_eq] at h
  rcases h with ((((((((((h | h) | h) | h) | h) | h) | h) | h) | h) | h) | h) | h <;>
    subst h <;> decide

theorem rankDigit_facts (c : Char) (h : isRankDigit c = true) :
    c.isDigit = true ∧ 49 ≤ c.toNat ∧ c.toNat ≤ 56 := by
  unfold isRankDigit at h
  rw [Bool.and_eq_true, Bool.and_eq_true] at h
  obtain ⟨⟨hdig, hne⟩, hle⟩ := h
  rw [decide_eq_true_eq] at hne hle
  refine ⟨hdig, ?_, hle⟩
  have hb : 48 ≤ c.toNat ∧ c.toNat ≤ 57 := by
    simp [Char.isDigit] at hdig
    exact ⟨hdig.1, hdig.2⟩
  omega

theorem natChars_digit (c : Char) (h1 : 49 ≤ c.toNat) (h2 : c.toNat ≤ 56) :
    natChars (c.toNat - 48) = [c] := by
  have hofn : Char.ofNat c.toNat = c := Char.ofNat_toNat c
  have h48 : 48 + (c.toNat - 48) = c.toNat := by omega
  have hstep : natChars (c.toNat - 48) = [Char.ofNat (48 + (c.toNat - 48))] := by
    have hb1 : 1 ≤ c.toNat - 48 := by omega
    have hb8 : c.toNat - 48 ≤ 8 := by omega
    generalize hG : c.toNat - 48 = d at hb1 hb8
    unfold natChars
    interval_cases d <;> decide
  rw [hstep, h48, hofn]

theorem encRank_replicate : ∀ (k n : Nat) (t : List (Option Piece)),
    encRank n (List.replicate k Option.none ++ t) = encRank (n + k) t := by
  intro k
  induction k with
  | zero => intro n t; simp [List.replicate]
  | succ kk ih =>
      intro n t
      rw [List.replicate_succ, List.cons_append]
      show encRank (n + 1) (List.replicate kk Option.none ++ t) = encRank (n + (kk + 1)) t
      rw [ih (n + 1) t]
      have : n + 1 + kk = n + (kk + 1) := by omega
      rw [this]

theorem decRank_length : ∀ p : List Char, (decRank p).length = rankWidth p := by
  intro p
  induction p with
  | nil => rfl
  | cons c t ih =>
      unfold decRank rankWidth
      by_cases hd : c.isDigit = true
      · rw [if_pos hd, if_pos hd]
        simp [ih]
      · rw [if_neg hd, if_neg hd]
        simp [ih]
        omega

theorem encRank_decRank : ∀ p : List Char,
    (chkRank false p = true → encRank 0 (decRank p) = p) ∧
    (chkRank true p = true → ∀ k, 1 ≤ k → k ≤ 9 →
      encRank k (decRank p) = natChars k ++ p) := by
  intro p
  induction p with
  | nil =>
      constructor
      · intro _; rfl
      · intro _ k h1 _
        show (if k > 0 then natChars k else []) = natChars k ++ []
        rw [if_pos (by omega)]
        simp
  | cons c t ih =>
      constructor
      · intro h
        unfold chkRank at h
        by_cases hp : isPieceFenChar c = true
        · rw [if_pos hp] at h
          show encRank 0 (decRank (c :: t)) = c :: t
          unfold decRank
          rw [if_neg (by rw [piece_not_digit c hp]; exact Bool.false_ne_true)]
          show (if 0 > 0 then natChars 0 else []) ++
            pieceChar (Piece.from_fen c) :: encRank 0 (decRank t) = c :: t
          rw [if_neg (by omega)]
          rw [List.nil_append, pieceChar_from_fen c hp, ih.1 h]
        · rw [if_neg hp] at h
          by_cases hd : isRankDigit c = true
          · rw [if_pos hd] at h
            simp only [Bool.not_false, Bool.true_and] at h
            obtain ⟨hcd, hb1, hb2⟩ := rankDigit_facts c hd
            show encRank 0 (decRank (c :: t)) = c :: t
            unfold decRank
            rw [if_pos hcd, encRank_replicate (c.toNat - 48) 0 (decRank t), Nat.zero_add]
            rw [ih.2 h (c.toNat - 48) (by omega) (by omega)]
            rw [natChars_digit c hb1 hb2]
            rfl
          · rw [if_neg hd] at h
            cases h
      · intro h k hk1 hk9
        unfold chkRank at h
        by_cases hp : isPieceFenChar c = true
        · rw [if_pos hp] at h
          show encRank k (decRank (c :: t)) = natChars k ++ (c :: t)
          unfold decRank
          rw [if_neg (by rw [piece_not_digit c hp]; exact Bool.false_ne_true)]
          show (if k > 0 then natChars k else []) ++
            pieceChar (Piece.from_fen c) :: encRank 0 (decRank t) = natChars k ++ (c :: t)
          rw [if_pos (by omega)]
          rw [pieceChar_from_fen c hp, ih.1 h]
        · rw [if_neg hp] at h
          by_cases hd : isRankDigit c = true
          · rw [if_pos hd] at h
            simp at h
          · rw [if_neg hd] at h
            cases h

theorem sqName_inj_fin : ∀ a b c d : Fin 8,
    sqName a.val c.val = sqName b.val d.val → a = b ∧ c = d := by
  decide

theorem sqName_inj8 {f1 r1 f2 r2 : Nat} (hf1 : f1 < 8) (hr1 : r1 < 8) (hf2 : f2 < 8)
    (hr2 : r2 < 8) (h : sqName f1 r1 = sqName f2 r2) : f1 = f2 ∧ r1 = r2 := by
  have := sqName_inj_fin ⟨f1, hf1⟩ ⟨f2, hf2⟩ ⟨r1, hr1⟩ ⟨r2, hr2⟩ h
  exact ⟨congrArg Fin.val this.1, congrArg Fin.val this.2⟩

theorem posGet_append_none (A B : List (Sq × Piece)) (n : Sq)
    (h : posGet A n = Option.none) : posGet (A ++ B) n = posGet B n := by
  induction A with
  | nil => rfl
  | cons e t ih =>
      obtain ⟨e1, e2⟩ := e
      rw [List.cons_append]
      simp only [posGet] at h ⊢
      by_cases hc : e1 = n
      · rw [if_pos hc] at h; cases h
      · rw [if_neg hc] at h ⊢
        exact ih h

theorem posGet_append_some (A B : List (Sq × Piece)) (n : Sq) (v : Piece)
    (h : posGet A n = some v) : posGet (A ++ B) n = some v := by
  induction A with
  | nil => cases h
  | cons e t ih =>
      obtain ⟨e1, e2⟩ := e
      rw [List.cons_append]
      simp only [posGet] at h ⊢
      by_cases hc : e1 = n
      · rw [if_pos hc] at h ⊢
        exact h
      · rw [if_neg hc] at h ⊢
        exact ih h

theorem posGet_eq_none (l : List (Sq × Piece)) (n : Sq) (h : ∀ e ∈ l, e.1 ≠ n) :
    posGet l n = Option.none := by
  induction l with
  | nil => rfl
  | cons e t ih =>
      obtain ⟨e1, e2⟩ := e
      unfold posGet
      rw [if_neg (h (e1, e2) (List.mem_cons_self _ _))]
      exact ih (fun d hd => h d (List.mem_cons_of_mem _ hd))

theorem getD_append_left {α : Type} (A B : List α) (j : Nat) (d : α) (h : j < A.length) :
    (A ++ B).getD j d = A.getD j d := by
  induction A generalizing j with
  | nil => simp at h
  | cons x t ih =>
      cases j with
      | zero => rfl
      | succ jj =>
          simp only [List.cons_append, List.getD_cons_succ]
          exact ih jj (by simpa using h)

theorem getD_append_right {α : Type} (A B : List α) (j : Nat) (d : α) (h : A.length ≤ j) :
    (A ++ B).getD j d = B.getD (j - A.length) d := by
  induction A generalizing j with
  | nil => simp
  | cons x t ih =>
      cases j with
      | zero => simp at h
      | succ jj =>
          simp only [List.cons_append, List.getD_cons_succ, List.length_cons]
          rw [ih jj (by simpa using h)]
          congr 1
          omega

theorem getD_replicate_none (k j : Nat) (h : j < k) :
    (List.replicate k (Option.none : Option Piece)).getD j Option.none = Option.none := by
  induction k generalizing j with
  | zero => omega
  | succ kk ih =>
      cases j with
      | zero => rfl
      | succ jj =>
          rw [List.replicate_succ, List.getD_cons_succ]
          exact ih jj (by omega)

theorem loadRankAux_keys : ∀ (p : List Char) (k f0 : Nat) (e : Sq × Piece),
    e ∈ loadRankAux k f0 p → ∃ j, j < rankWidth p ∧ e.1 = sqName (f0 + j) k := by
  intro p
  induction p with
  | nil => intro k f0 e he; cases he
  | cons c t ih =>
      intro k f0 e he
      unfold loadRankAux at he
      unfold rankWidth
      by_cases hd : c.isDigit = true
      · rw [if_pos hd] at he
        rw [if_pos hd]
        obtain ⟨j, hj, hk⟩ := ih k (f0 + (c.toNat - 48)) e he
        refine ⟨(c.toNat - 48) + j, by omega, ?_⟩
        rw [hk]
        congr 1
        omega
      · rw [if_neg hd] at he
        rw [if_neg hd]
        rcases List.mem_cons.mp he with h1 | h1
        · refine ⟨0, by omega, ?_⟩
          rw [h1]
          simp
        · obtain ⟨j, hj, hk⟩ := ih k (f0 + 1) e h1
          refine ⟨j + 1, by omega, ?_⟩
          rw [hk]
          congr 1
          omega

theorem loadRankAux_posGet : ∀ (p : List Char) (k f0 j : Nat), k < 8 →
    f0 + rankWidth p ≤ 8 → j < rankWidth p →
    posGet (loadRankAux k f0 p) (sqName (f0 + j) k) = (decRank p).getD j Option.none := by
  intro p
  induction p with
  | nil => intro k f0 j _ _ hj; simp [rankWidth] at hj
  | cons c t ih =>
      intro k f0 j hk hw hj
      unfold loadRankAux decRank
      unfold rankWidth at hw hj
      by_cases hd : c.isDigit = true
      · rw [if_pos hd] at hw hj ⊢
        rw [if_pos hd]
        by_cases hjd : j < c.toNat - 48
        · have hnone : posGet (loadRankAux k (f0 + (c.toNat - 48)) t)
              (sqName (f0 + j) k) = Option.none := by
            apply posGet_eq_none
            intro e he heq
            obtain ⟨j2, hj2, hk2⟩ := loadRankAux_keys t k (f0 + (c.toNat - 48)) e he
            rw [hk2] at heq
            have h8a : f0 + (c.toNat - 48) + j2 < 8 := by omega
            have h8b : f0 + j < 8 := by omega
            have := (sqName_inj8 h8a hk h8b hk heq).1
            omega
          rw [hnone]
          rw [getD_append_left _ _ _ _ (by simpa using hjd)]
          rw [getD_replicate_none _ _ hjd]
        · have hsplit : f0 + j = (f0 + (c.toNat - 48)) + (j - (c.toNat - 48)) := by omega
          rw [hsplit]
          rw [ih k (f0 + (c.toNat - 48)) (j - (c.toNat - 48)) hk (by omega) (by omega)]
          rw [getD_append_right _ _ _ _ (by simpa using not_lt.mp hjd)]
          congr 1
          simp
      · rw [if_neg hd] at hw hj ⊢
        rw [if_neg hd]
        cases j with
        | zero =>
            show posGet ((sqName f0 k, Piece.from_fen c) :: loadRankAux k (f0 + 1) t)
              (sqName (f0 + 0) k) = _
            unfold posGet
            rw [if_pos (by simp)]
            rfl
        | succ jj =>
            have hne : sqName f0 k ≠ sqName (f0 + (jj + 1)) k := by
              intro heq
              have h8a : f0 < 8 := by omega
              have h8b : f0 + (jj + 1) < 8 := by omega
              have := (sqName_inj8 h8a hk h8b hk heq).1
              omega
            show posGet ((sqName f0 k, Piece.from_fen c) :: loadRankAux k (f0 + 1) t)
              (sqName (f0 + (jj + 1)) k) = _
            unfold posGet
            rw [if_neg hne]
            have hsplit : f0 + (jj + 1) = (f0 + 1) + jj := by omega
            rw [hsplit, ih k (f0 + 1) jj hk (by omega) (by omega)]
            rfl

theorem loadRanksAux_posGet : ∀ (parts : List (List Char)) (i0 k f : Nat),
    k < 8 → f < 8 → i0 + parts.length ≤ 8 → (∀ p ∈ parts, rankWidth p = 8) →
    posGet (loadRanksAux 0 0 i0 parts) (sqName f k) =
      if i0 ≤ 7 - k ∧ 7 - k < i0 + parts.length
      then (decRank (parts.getD ((7 - k) - i0) [])).getD f Option.none
      else Option.none := by
  intro parts
  induction parts with
  | nil =>
      intro i0 k f hk hf hlen hw
      rw [if_neg (by simp)]
      rfl
  | cons p rest ih =>
      intro i0 k f hk hf hlen hw
      rw [List.length_cons] at hlen
      have hi07 : i0 ≤ 7 := by omega
      have hwp : rankWidth p = 8 := hw p (List.mem_cons_self _ _)
      show posGet (loadRankAux ((7 - i0) + 0) 0 p ++ loadRanksAux 0 0 (i0 + 1) rest)
        (sqName f k) = _
      rw [Nat.add_zero]
      by_cases hk0 : k = 7 - i0
      · have hL3 : posGet (loadRankAux (7 - i0) 0 p) (sqName f k) =
            (decRank p).getD f Option.none := by
          rw [hk0]
          have := loadRankAux_posGet p (7 - i0) 0 f (by omega) (by omega) (by omega)
          simpa using this
        cases hv : (decRank p).getD f Option.none with
        | some v =>
            rw [posGet_append_some _ _ _ _ (by rw [hL3, hv])]
            rw [if_pos (by constructor <;> [omega; (rw [List.length_cons]; omega)])]
            have hidx : (7 - k) - i0 = 0 := by omega
            rw [hidx]
            show some v = (decRank p).getD f Option.none
            rw [hv]
        | none =>
            rw [posGet_append_none _ _ _ (by rw [hL3, hv])]
            rw [ih (i0 + 1) k f hk hf (by omega)
              (fun q hq => hw q (List.mem_cons_of_mem _ hq))]
            rw [if_neg (by omega)]
            rw [if_pos (by constructor <;> [omega; (rw [List.length_cons]; omega)])]
            have hidx : (7 - k) - i0 = 0 := by omega
            rw [hidx]
            show (Option.none : Option Piece) = (decRank p).getD f Option.none
            rw [hv]
      · have hnone : posGet (loadRankAux (7 - i0) 0 p) (sqName f k) = Option.none := by
          apply posGet_eq_none
          intro e he heq
          obtain ⟨j, hj, hkey⟩ := loadRankAux_keys p (7 - i0) 0 e he
          rw [hkey] at heq
          have h8a : 0 + j < 8 := by omega
          have h8b : 7 - i0 < 8 := by omega
          have := (sqName_inj8 h8a h8b hf hk heq).2
          omega
        rw [posGet_append_none _ _ _ hnone]
        rw [ih (i0 + 1) k f hk hf (by omega)
          (fun q hq => hw q (List.mem_cons_of_mem _ hq))]
        by_cases hc : i0 + 1 ≤ 7 - k ∧ 7 - k < (i0 + 1) + rest.length
        · rw [if_pos hc]
          rw [if_pos (by rw [List.length_cons]; omega)]
          have hidx : (7 - k) - i0 = ((7 - k) - (i0 + 1)) + 1 := by omega
          rw [hidx]
          simp [List.getD_cons_succ]
        · rw [if_neg hc]
          rw [if_neg (by rw [List.length_cons]; omega)]

theorem map_range_getD {α : Type} : ∀ (l : List α) (d : α),
    (List.range l.length).map (fun j => l.getD j d) = l := by
  intro l d
  induction l with
  | nil => rfl
  | cons x t ih =>
      rw [List.length_cons, List.range_succ_eq_map, List.map_cons, List.map_map]
      have hcomp : ((fun j => (x :: t).getD j d) ∘ Nat.succ) = fun j => t.getD j d :=
        funext fun j => rfl
      rw [hcomp, ih]
      rfl

theorem map_range_getD_of_len {α : Type} (l : List α) (n : Nat) (d : α)
    (h : l.length = n) : (List.range n).map (fun j => l.getD j d) = l := by
  subst h
  exact map_range_getD l d

theorem getD_mem {α : Type} : ∀ (l : List α) (i : Nat) (d : α), i < l.length →
    l.getD i d ∈ l := by
  intro l
  induction l with
  | nil => intro i d h; simp at h
  | cons x t ih =>
      intro i d h
      cases i with
      | zero => exact List.mem_cons_self _ _
      | succ j => exact List.mem_cons_of_mem _ (ih j d (by simpa using h))

/-- Exporting the freshly loaded (offset-free) position reproduces a
canonical 8-rank FEN string. -/
theorem toFen_loaded (fen : List Char) (hcanon : canonicalFen fen = true) :
    joinSlash ((List.range 8).map
      (fun i => toFenRank (loadRanksAux 0 0 0 (splitSlash fen)) (7 - i))) = fen := by
  unfold canonicalFen at hcanon
  rw [Bool.and_eq_true, decide_eq_true_eq, List.all_eq_true] at hcanon
  obtain ⟨hlen, hall⟩ := hcanon
  have hw : ∀ p ∈ splitSlash fen, rankWidth p = 8 := by
    intro p hp
    have h := hall p hp
    unfold canonicalRank at h
    rw [Bool.and_eq_true, decide_eq_true_eq] at h
    exact h.2
  have hchk : ∀ p ∈ splitSlash fen, chkRank false p = true := by
    intro p hp
    have h := hall p hp
    unfold canonicalRank at h
    rw [Bool.and_eq_true] at h
    exact h.1
  have hrank : ∀ i ∈ List.range 8,
      toFenRank (loadRanksAux 0 0 0 (splitSlash fen)) (7 - i) =
        (splitSlash fen).getD i [] := by
    intro i hi
    have hi8 : i < 8 := List.mem_range.mp hi
    have hpartmem : (splitSlash fen).getD i [] ∈ splitSlash fen :=
      getD_mem _ i [] (by rw [hlen]; omega)
    unfold toFenRank
    have hinner : ∀ f2 ∈ List.range 8,
        posGet (loadRanksAux 0 0 0 (splitSlash fen)) (sqName f2 (7 - i)) =
          (decRank ((splitSlash fen).getD i [])).getD f2 Option.none := by
      intro f2 hf2
      have hf8 : f2 < 8 := List.mem_range.mp hf2
      rw [loadRanksAux_posGet (splitSlash fen) 0 (7 - i) f2 (by omega) hf8
        (by rw [hlen]) hw]
      rw [if_pos (by rw [hlen]; omega)]
      have hidx : (7 - (7 - i)) - 0 = i := by omega
      rw [hidx]
    rw [List.map_congr_left hinner]
    rw [map_range_getD_of_len (decRank ((splitSlash fen).getD i [])) 8 _
      (by rw [decRank_length]; exact hw _ hpartmem)]
    exact (encRank_decRank _).1 (hchk _ hpartmem)
  rw [List.map_congr_left hrank]
  rw [map_range_getD_of_len (splitSlash fen) 8 [] hlen]
  exact joinSlash_splitSlash fen

/-- C10. For a board state with no play-area offset and any canonical
8-rank FEN position part, `load_fen` into 'virtual' followed by
`to_fen('virtual')` returns the original string and leaves the physical
position map unchanged; symmetrically for 'physical'. -/
theorem load_fen_to_fen_roundtrip (bs : BoardState) (fen : List Char)
    (hfo : loadFileOffset bs = 0) (hro : loadRankOffset bs = 0)
    (hcanon : canonicalFen fen = true) :
    ((bs.load_fen fen FenTarget.virtual).to_fen FenTarget.virtual = fen ∧
      (bs.load_fen fen FenTarget.virtual).physical_position = bs.physical_position) ∧
    ((bs.load_fen fen FenTarget.physical).to_fen FenTarget.physical = fen ∧
      (bs.load_fen fen FenTarget.physical).virtual_position = bs.virtual_position) := by
  have hnosp := canonicalFen_no_space fen hcanon
  have hloadv : bs.load_fen fen FenTarget.virtual =
      { bs with virtual_position := loadRanksAux 0 0 0 (splitSlash fen) } := by
    unfold BoardState.load_fen
    rw [hfo, hro, hnosp]
  have hloadp : bs.load_fen fen FenTarget.physical =
      { bs with physical_position := loadRanksAux 0 0 0 (splitSlash fen) } := by
    unfold BoardState.load_fen
    rw [hfo, hro, hnosp]
  refine ⟨⟨?_, ?_⟩, ⟨?_, ?_⟩⟩
  · rw [hloadv]
    exact toFen_loaded fen hcanon
  · rw [hloadv]
  · rw [hloadp]
    exact toFen_loaded fen hcanon
  · rw [hloadp]

/-- Witness for C10: the standard starting position round-trips on a fresh
`BoardState`, leaving the physical map untouched. -/
theorem load_fen_to_fen_roundtrip_witness :
    (({} : BoardState).load_fen startFenChars FenTarget.virtual).to_fen FenTarget.virtual =
      startFenChars ∧
    (({} : BoardState).load_fen startFenChars FenTarget.virtual).physical_position =
      ({} : BoardState).physical_position :=
  (load_fen_to_fen_roundtrip {} startFenChars rfl rfl (by decide)).1

end ChessMover
